import Mathlib

/-!
# gwugsuh: battery telemetry drivers and aggregation

A shallow embedding of

* `internal/bq25895/bq25895.go` (charge controller driver),
* `internal/max17048/max17048.go` (fuel gauge driver),
* `internal/server/server.go` (`rootHandler`, the aggregation policy).

Conventions of the embedding.

* A Go `byte` is a `Nat` below 256; bytes coming off the bus are reduced
  `% 256` where they enter the program, a `uint16` is reduced `% 65536`.
* A Go `float64` is a rational (`ℚ`); `int(x)` on a float is truncation
  toward zero (`goInt`).  The arithmetic of the two drivers is exact.  The
  product `BatteryPercentage * 100` of `rootHandler` is the IEEE 754 binary64
  product (`f64Mul`): both operands are taken to the nearest double and the
  exact product is rounded to the nearest double, ties to even.  Infinities,
  NaN and overflow have no counterpart.
* A Go `error` is an `Option Error` (`none` is `nil`), a `*BQStatus` is an
  `Option BQStatus` (`none` is `nil`).
* The I2C device is an explicit state: a table giving the outcome of the
  n-th transaction, the number of transactions issued, and the log of the
  bytes written by each of them.
* `time.Sleep` and `log.Printf` have no counterpart.
-/

namespace Gwugsuh

/-! ## Bus transport (periph.io `i2c.Dev`) -/

/-- A Go `error` value that is not `nil`. -/
abbrev Error := String

/-- Outcome of one bus transaction: a transport error, or the bytes the
device delivered. -/
inductive TxOutcome where
  | fail (err : Error)
  | done (rx : List Nat)

/-- Device handle together with the state of the bus behind it. -/
structure Dev where
  /-- Device address. -/
  addr : Nat
  /-- Outcome of the n-th transaction issued on this device. -/
  outcome : Nat → TxOutcome
  /-- Number of transactions issued so far. -/
  count : Nat
  /-- Bytes written by each transaction issued so far, oldest first. -/
  log : List (List Nat)

/-- Whether an outcome is a success. -/
def TxOutcome.isDone : TxOutcome → Bool
  | .fail _ => false
  | .done _ => true

/-- Model of `(*i2c.Dev).Tx(w, r)`: one transaction writing `w` and reading
`r.length` bytes.  Returns the new device state, the read buffer and the
error.  On failure the buffer is left as it was. -/
def Dev.Tx (d : Dev) (w : List Nat) (r : List Nat) : Dev × List Nat × Option Error :=
  let d1 : Dev := { d with count := d.count + 1, log := d.log ++ [w] }
  match d.outcome d.count with
  | .fail err => (d1, r, some err)
  | .done rx => (d1, (List.range r.length).map (fun i => rx.getD i 0 % 256), none)

/-- Model of `(*i2c.Dev).Write(b)`: a transaction with no read part. -/
def Dev.Write (d : Dev) (b : List Nat) : Dev × Nat × Option Error :=
  match d.Tx b [] with
  | (d1, _, none) => (d1, b.length, none)
  | (d1, _, some err) => (d1, 0, some err)

/-! ## Go numeric conversions -/

/-- Go `int(x)` for a float `x`: truncation toward zero. -/
def goInt (x : ℚ) : Int :=
  if 0 ≤ x then ⌊x⌋ else ⌈x⌉

/-- Rounding to the nearest integer, ties to the even one. -/
def roundHalfEven (x : ℚ) : Int :=
  let f := ⌊x⌋
  let r := x - f
  if r < 1 / 2 then f
  else if 1 / 2 < r then f + 1
  else if f % 2 = 0 then f else f + 1

/-- Exponent of the last place of a binary64 value of magnitude `a`: 52 below
the binary exponent of `a`, and never below the subnormal exponent -1074. -/
def f64Exp (a : ℚ) : Int := max (Int.log 2 a - 52) (-1074)

/-- The binary64 value nearest to `x`, ties to even: `x` is scaled to a 53-bit
significand, rounded, and scaled back. -/
def toF64 (x : ℚ) : ℚ :=
  if x = 0 then 0
  else (roundHalfEven (x / (2 : ℚ) ^ f64Exp |x|) : ℚ) * (2 : ℚ) ^ f64Exp |x|

/-- Go `a * b` on two `float64` values: the exact product of the two doubles,
rounded to the nearest double. -/
def f64Mul (a b : ℚ) : ℚ := toF64 (toF64 a * toF64 b)

/-! ## internal/bq25895 -/

namespace bq25895

def Addr : Nat := 0x6A

def REG_ILIM : Nat := 0x00
def REG_ICHG : Nat := 0x04
def REG_WATCHDOG : Nat := 0x07
def REG_BATFET : Nat := 0x09
def REG_STATUS : Nat := 0x0B
def REG_BATV : Nat := 0x0E
def REG_CONV_ADC : Nat := 0x02

def BYTE_WATCHDOG_STOP : Nat := 0b10001101
def BYTE_ILIM_2A : Nat := 0b01101000
def BYTE_ILIM_3A : Nat := 0b01111100
def BYTE_ILIM_3_25A : Nat := 0b01111111
def BYTE_ICHG_0_5A : Nat := 0b01111111
def BYTE_BATFET : Nat := 0b01001000

def BYTE_CONV_ADC_START : Nat := 0b10011101
def BYTE_CONV_ADC_STOP : Nat := 0b00011101

def REG_BATFET_DIS : Nat := 0x09
def BYTE_BATFET_DIS : Nat := 0b01101000

/-- Go struct `BQStatus`. -/
structure BQStatus where
  Input : String
  ChargeStatus : String
  BatteryVoltage : ℚ
  BatteryPercentage : ℚ
  TimeRemaining : Int
  deriving DecidableEq

/-- Method `writeReg`: `b.dev.Tx([]byte{reg, val}, nil)`. -/
def writeReg (b : Dev) (reg val : Nat) : Dev × Option Error :=
  match b.Tx [reg, val] [] with
  | (b1, _, err) => (b1, err)

/-- Method `readReg`: a one-byte read, `0` on error, `buf[0]` otherwise. -/
def readReg (b : Dev) (reg : Nat) : Dev × Nat × Option Error :=
  let buf : List Nat := [0]
  match b.Tx [reg] buf with
  | (b1, _, some err) => (b1, 0, some err)
  | (b1, buf1, none) => (b1, buf1.getD 0 0, none)

/-- Function `bqTranslate`. -/
def bqTranslate (val inFrom inTo outFrom outTo : ℚ) : ℚ :=
  let outRange := outTo - outFrom
  let inRange := inTo - inFrom
  let inVal := val - inFrom
  let valNorm := (inVal / inRange) * outRange
  outFrom + valNorm

/-- Method `Init`. -/
def Init (b : Dev) (inputLimit : String) : Dev × Option Error :=
  match writeReg b REG_WATCHDOG BYTE_WATCHDOG_STOP with
  | (b1, some err) => (b1, some err)
  | (b1, none) =>
    let ilim := BYTE_ILIM_3_25A
    let ilim :=
      if inputLimit = "2A" then BYTE_ILIM_2A
      else if inputLimit = "3A" then BYTE_ILIM_3A
      else ilim
    match writeReg b1 REG_ILIM (ilim % 256) with
    | (b2, some err) => (b2, some err)
    | (b2, none) =>
      match writeReg b2 REG_ICHG BYTE_ICHG_0_5A with
      | (b3, some err) => (b3, some err)
      | (b3, none) =>
        match writeReg b3 REG_BATFET BYTE_BATFET with
        | (b4, some err) => (b4, some err)
        | (b4, none) => (b4, none)

/-- The `Parse Status` step of `GetStatus`, input power: bit 2 is PG_STAT. -/
def parsePower (statusByte : Nat) : String :=
  let pgStat := (statusByte >>> 2) &&& 1
  let power := "Disconnected"
  if pgStat = 1 then "Connected" else power

/-- The `Parse Status` step of `GetStatus`, charge stage: bits 4,3 are
CHRG_STAT. -/
def parseCharge (statusByte : Nat) : String :=
  let chrgStat := (statusByte >>> 3) &&& 0b11
  let charge := "Discharging"
  match chrgStat with
  | 0b00 => "Not Charging"
  | 0b01 => "Pre-Charge"
  | 0b10 => "Charging"
  | 0b11 => "Charging done"
  | _ => charge

/-- The `Parse Voltage` step of `GetStatus`. -/
def parseVoltage (batVByte : Nat) : ℚ :=
  let batV : ℚ := 2.304
  let batV := if (batVByte >>> 6) &&& 1 = 1 then batV + 1.280 else batV
  let batV := if (batVByte >>> 5) &&& 1 = 1 then batV + 0.640 else batV
  let batV := if (batVByte >>> 4) &&& 1 = 1 then batV + 0.320 else batV
  let batV := if (batVByte >>> 3) &&& 1 = 1 then batV + 0.160 else batV
  let batV := if (batVByte >>> 2) &&& 1 = 1 then batV + 0.080 else batV
  let batV := if (batVByte >>> 1) &&& 1 = 1 then batV + 0.040 else batV
  let batV := if (batVByte >>> 0) &&& 1 = 1 then batV + 0.020 else batV
  batV

/-- The `Translate Voltage to Percentage` step of `GetStatus`: the linear
map followed by the two clamps. -/
def percentOfVoltage (batV : ℚ) : ℚ :=
  let batPercent := bqTranslate batV 3.5 4.184 0 1
  let batPercent := if batPercent < 0 then 0 else batPercent
  let batPercent := if batPercent > 1 then 1 else batPercent
  batPercent

def batCapacity : ℚ := 2500.0
def currentDraw : ℚ := 2000.0

/-- The `Time Remaining` step of `GetStatus`. -/
def timeRemaining (power : String) (batPercent : ℚ) : Int :=
  let timeLeftMin := goInt (batPercent * 60 * batCapacity / currentDraw)
  if power = "Connected" then -1 else timeLeftMin

/-- The decoding part of `GetStatus` (from `Parse Status` to the returned
struct literal), as a function of the two bytes read. -/
def decodeStatus (statusByte batVByte : Nat) : BQStatus :=
  let power := parsePower statusByte
  let charge := parseCharge statusByte
  let batV := parseVoltage batVByte
  let batPercent := percentOfVoltage batV
  let timeLeftMin := timeRemaining power batPercent
  { Input := power
    ChargeStatus := charge
    BatteryVoltage := batV
    BatteryPercentage := batPercent
    TimeRemaining := timeLeftMin }

/-- Method `GetStatus`: the bus transactions in the order of the source,
threaded through `b`, around `decodeStatus`; the low-voltage protection
write is issued with its result dropped. -/
def GetStatus (b : Dev) : Dev × Option BQStatus × Option Error :=
  match writeReg b REG_CONV_ADC BYTE_CONV_ADC_START with
  | (b1, some err) => (b1, none, some err)
  | (b1, none) =>
    match readReg b1 REG_STATUS with
    | (b2, _, some err) => (b2, none, some err)
    | (b2, statusByte, none) =>
      match readReg b2 REG_BATV with
      | (b3, _, some err) => (b3, none, some err)
      | (b3, batVByte, none) =>
        match writeReg b3 REG_CONV_ADC BYTE_CONV_ADC_STOP with
        | (b4, some err) => (b4, none, some err)
        | (b4, none) =>
          let st := decodeStatus statusByte batVByte
          let b5 :=
            if st.BatteryVoltage < 3.5 then (writeReg b4 REG_BATFET_DIS BYTE_BATFET_DIS).1
            else b4
          (b5, some st, none)

end bq25895

/-! ## internal/max17048 -/

namespace max17048

def Addr : Nat := 0x36

/-- Go expression `uint16(hi)<<8 | uint16(lo)` on two bytes. -/
def word16 (hi lo : Nat) : Nat :=
  (((hi % 65536) <<< 8) % 65536) ||| (lo % 65536)

/-- Method `Init`: the reset command `0xFE, 0xFF, 0xFF`. -/
def Init (m : Dev) : Dev × Option Error :=
  match m.Write [0xFE, 0xFF, 0xFF] with
  | (m1, _, err) => (m1, err)

/-- Method `GetStatus`: `(voltage, soc, err)`. -/
def GetStatus (m : Dev) : Dev × ℚ × ℚ × Option Error :=
  let buf : List Nat := [0, 0]
  match m.Tx [0x02] buf with
  | (m1, _, some err) => (m1, 0, 0, some err)
  | (m1, buf1, none) =>
    let rawV := word16 (buf1.getD 0 0) (buf1.getD 1 0)
    let voltage : ℚ := (rawV : ℚ) * 78.125 / 1000000.0
    match m1.Tx [0x04] buf1 with
    | (m2, _, some err) => (m2, 0, 0, some err)
    | (m2, buf2, none) =>
      let rawSOC := word16 (buf2.getD 0 0) (buf2.getD 1 0)
      let soc : ℚ := (rawSOC : ℚ) / 256.0
      (m2, voltage, soc, none)

end max17048

/-! ## internal/server -/

namespace server

open bq25895 (BQStatus)

/-- Go struct `BatteryResponse`. -/
structure BatteryResponse where
  Level : Int
  Voltage : ℚ
  State : String
  IsCharging : Bool
  deriving DecidableEq

/-- An implementation of interface `BQClient`, given by what its
`GetStatus` returns in this cycle. -/
structure BQClient where
  Status : Option BQStatus
  Err : Option Error

/-- An implementation of interface `MaxClient`, given by what its
`GetStatus` returns in this cycle. -/
structure MaxClient where
  Vol : ℚ
  Soc : ℚ
  Err : Option Error

/-- Go struct `Server`; a `nil` interface field is `none`. -/
structure Server where
  bq : Option BQClient
  max : Option MaxClient

/-- Method `rootHandler`, up to the value handed to the JSON encoder.  The
four fields of `resp` are carried as four variables, each assigned by the
block of the source that assigns that field. -/
def rootHandler (s : Server) : BatteryResponse :=
  -- Defaults
  let respLevel : Int := 0
  let respVoltage : ℚ := 0
  let respState : String := "Discharging"
  -- Fetch BQ25895 status
  let bqStatus : Option BQStatus :=
    match s.bq with
    | some c => c.Status
    | none => none
  -- Fetch MAX17048 status
  let maxRes : ℚ × ℚ × Option Error :=
    match s.max with
    | some c => (c.Vol, c.Soc, c.Err)
    | none => (0, 0, none)
  let maxVol := maxRes.1
  let maxSoc := maxRes.2.1
  let maxErr := maxRes.2.2
  -- Logic for Level
  let respLevel :=
    if s.max.isSome ∧ maxErr = none then goInt maxSoc
    else match bqStatus with
      | some st => goInt (f64Mul st.BatteryPercentage 100)
      | none => respLevel
  -- Logic for Voltage
  let respVoltage :=
    if s.max.isSome ∧ maxErr = none then maxVol
    else match bqStatus with
      | some st => st.BatteryVoltage
      | none => respVoltage
  -- Logic for State & IsCharging
  let respState :=
    match bqStatus with
    | some st =>
      if st.ChargeStatus = "Charging done" then "Full"
      else if st.ChargeStatus = "Charging" ∨ st.ChargeStatus = "Pre-Charge" then "Charging"
      else if st.ChargeStatus = "Not Charging" then
        if st.Input = "Connected" then "Not Charging" else "Discharging"
      else "Discharging"
    | none => respState
  let respIsCharging := decide (respState = "Charging")
  { Level := respLevel, Voltage := respVoltage, State := respState,
    IsCharging := respIsCharging }

/-- The real charge controller driver behind interface `BQClient`. -/
def bqClientOfDriver (b : Dev) : BQClient :=
  { Status := (bq25895.GetStatus b).2.1, Err := (bq25895.GetStatus b).2.2 }

/-- The real fuel gauge driver behind interface `MaxClient`. -/
def maxClientOfDriver (m : Dev) : MaxClient :=
  { Vol := (max17048.GetStatus m).2.1, Soc := (max17048.GetStatus m).2.2.1,
    Err := (max17048.GetStatus m).2.2.2 }

end server

/-! ## Sample devices and servers -/

namespace samples

/-- A charge controller whose ADC-stop write (the fourth transaction) fails
while every other transaction succeeds and reads deliver `0`. -/
def devStopFails : Dev :=
  { addr := bq25895.Addr
    outcome := fun n => if n = 3 then .fail "stop write failed" else .done [0]
    count := 0
    log := [] }

/-- A charge controller on which every transaction succeeds; the status
register reads `statusByte`, the battery-voltage register `batVByte`. -/
def devReading (statusByte batVByte : Nat) : Dev :=
  { addr := bq25895.Addr
    outcome := fun n => if n = 1 then .done [statusByte] else .done [batVByte]
    count := 0
    log := [] }

/-- A fuel gauge on which both reads succeed, delivering `(v0, v1)` from the
voltage register and `(s0, s1)` from the state-of-charge register. -/
def gaugeReading (v0 v1 s0 s1 : Nat) : Dev :=
  { addr := max17048.Addr
    outcome := fun n => if n = 0 then .done [v0, v1] else .done [s0, s1]
    count := 0
    log := [] }

/-- A charge controller whose second transaction fails while every other
one succeeds. -/
def devSecondFails : Dev :=
  { addr := bq25895.Addr
    outcome := fun n => if n = 1 then .fail "input limit write failed" else .done []
    count := 0
    log := [] }

end samples

/-! ## Specification-side definitions -/

namespace spec

/-- The input-limit pattern as the specification states it: the 2A and 3A
patterns for those tiers, the 3.25A pattern for every other value. -/
def ilimPattern (inputLimit : String) : Nat :=
  if inputLimit = "2A" then 0b01101000
  else if inputLimit = "3A" then 0b01111100
  else 0b01111111

/-- The four writes of `Initialize` in the order the specification states
them: watchdog, input limit, charge current, BATFET; each is the register
followed by the byte written. -/
def initWrites (inputLimit : String) : List (List Nat) :=
  [[0x07, 0b10001101], [0x00, ilimPattern inputLimit], [0x04, 0b01111111], [0x09, 0b01001000]]

/-- The four required transactions of the controller `GetStatus`, as bytes
written: ADC start, status register, battery-voltage register, ADC stop. -/
def statusWrites : List (List Nat) :=
  [[0x02, 0b10011101], [0x0B], [0x0E], [0x02, 0b00011101]]

/-- The battery-switch-disable write: register 0x09, pattern 0b01101000. -/
def batfetDisableWrite : List Nat := [0x09, 0b01101000]

end spec

/-! ## Arithmetic helper lemmas -/

section helpers

theorem shiftRight_and_one (n k : Nat) : (n >>> k) &&& 1 = n / 2 ^ k % 2 := by
  rw [Nat.shiftRight_eq_div_pow, Nat.and_one_is_mod]

theorem shiftRight_and_three (n k : Nat) : (n >>> k) &&& 0b11 = n / 2 ^ k % 4 := by
  rw [Nat.shiftRight_eq_div_pow]
  exact Nat.and_pow_two_sub_one_eq_mod _ 2

theorem ite_bit_add (x : Nat) (hx : x < 2) (acc w : ℚ) :
    (if x = 1 then acc + w else acc) = acc + w * (x : ℚ) := by
  interval_cases x <;> simp

theorem goInt_of_nonneg {x : ℚ} (hx : 0 ≤ x) : goInt x = ⌊x⌋ := by
  simp [goInt, hx]

end helpers

/-! ## Rounding to binary64 -/

section float64

theorem roundHalfEven_eq (t : ℚ) (m : ℤ) (h1 : (m : ℚ) - 1 / 2 < t) (h2 : t < m + 1 / 2) :
    roundHalfEven t = m := by
  unfold roundHalfEven
  rcases lt_or_le t m with h | h
  · have hf : ⌊t⌋ = m - 1 := by
      rw [Int.floor_eq_iff]
      constructor
      · push_cast
        linarith
      · push_cast
        linarith
    simp only [hf]
    have hr : ¬ (t - ((m - 1 : ℤ) : ℚ) < 1 / 2) := by
      push_cast
      linarith
    have hr2 : 1 / 2 < t - ((m - 1 : ℤ) : ℚ) := by
      push_cast
      linarith
    rw [if_neg hr, if_pos hr2]
    ring
  · have hf : ⌊t⌋ = m := by
      rw [Int.floor_eq_iff]
      exact ⟨h, by linarith⟩
    simp only [hf]
    have hr : t - (m : ℚ) < 1 / 2 := by linarith
    rw [if_pos hr]

theorem roundHalfEven_le (t : ℚ) (n : ℤ) (h : t ≤ n) : roundHalfEven t ≤ n := by
  unfold roundHalfEven
  have hf : ⌊t⌋ ≤ n := Int.floor_le_iff.mpr (by linarith) 
  rcases hf.lt_or_eq with hlt | heq
  · simp only
    split_ifs <;> omega
  · have hr : t - (⌊t⌋ : ℚ) < 1 / 2 := by
      rw [heq]
      linarith
    simp only [if_pos hr]
    exact hf

theorem le_roundHalfEven (t : ℚ) (n : ℤ) (h : (n : ℚ) ≤ t) : n ≤ roundHalfEven t := by
  unfold roundHalfEven
  have hf : n ≤ ⌊t⌋ := Int.le_floor.mpr h
  simp only
  split_ifs <;> omega

theorem f64Exp_le (x : ℚ) (E : ℤ) (hx : 0 < x) (hE : -1074 ≤ E)
    (hhi : x < (2 : ℚ) ^ (E + 53)) : f64Exp x ≤ E := by
  have hlog : Int.log 2 x < E + 53 := by
    rw [← Int.lt_zpow_iff_log_lt (by norm_num) hx]
    simpa using hhi
  unfold f64Exp
  omega

theorem f64Exp_eq (x : ℚ) (e : ℤ) (hx : 0 < x) (he : -1074 ≤ e)
    (hlo : (2 : ℚ) ^ (e + 52) ≤ x) (hhi : x < (2 : ℚ) ^ (e + 53)) : f64Exp x = e := by
  have h1 : Int.log 2 x < e + 53 := by
    rw [← Int.lt_zpow_iff_log_lt (by norm_num) hx]
    simpa using hhi
  have h2 : e + 52 ≤ Int.log 2 x := by
    rw [← Int.zpow_le_iff_le_log (by norm_num) hx]
    simpa using hlo
  unfold f64Exp
  omega

theorem toF64_pos_def (x : ℚ) (hx : 0 < x) :
    toF64 x = (roundHalfEven (x / (2 : ℚ) ^ f64Exp x) : ℚ) * (2 : ℚ) ^ f64Exp x := by
  unfold toF64
  rw [if_neg hx.ne', abs_of_pos hx]

theorem toF64_eq (x : ℚ) (m e : ℤ) (hx : 0 < x) (he : -1074 ≤ e)
    (hlo : (2 : ℚ) ^ (e + 52) ≤ x) (hhi : x < (2 : ℚ) ^ (e + 53))
    (h1 : (m : ℚ) - 1 / 2 < x / (2 : ℚ) ^ e) (h2 : x / (2 : ℚ) ^ e < m + 1 / 2) :
    toF64 x = m * (2 : ℚ) ^ e := by
  rw [toF64_pos_def x hx, f64Exp_eq x e hx he hlo hhi, roundHalfEven_eq _ m h1 h2]

theorem toF64_nonneg (x : ℚ) (hx : 0 ≤ x) : 0 ≤ toF64 x := by
  rcases hx.lt_or_eq with h | h
  · rw [toF64_pos_def x h]
    have hp : (0 : ℚ) < (2 : ℚ) ^ f64Exp x := zpow_pos (by norm_num) _
    have h0 : (0 : ℤ) ≤ roundHalfEven (x / (2 : ℚ) ^ f64Exp x) :=
      le_roundHalfEven _ 0 (by
        push_cast
        exact (div_pos h hp).le)
    have h0' : (0 : ℚ) ≤ (roundHalfEven (x / (2 : ℚ) ^ f64Exp x) : ℚ) := by exact_mod_cast h0
    exact mul_nonneg h0' hp.le
  · rw [← h]
    simp [toF64]

theorem toF64_le_rep (x : ℚ) (M : ℕ) (E : ℤ) (hx : 0 < x) (hE : -1074 ≤ E)
    (hM : M < 2 ^ 53) (h : x ≤ M * (2 : ℚ) ^ E) : toF64 x ≤ M * (2 : ℚ) ^ E := by
  have hpE : (0 : ℚ) < (2 : ℚ) ^ E := zpow_pos (by norm_num) _
  have hhi : x < (2 : ℚ) ^ (E + 53) := by
    have hM' : (M : ℚ) < 2 ^ 53 := by exact_mod_cast hM
    have : (2 : ℚ) ^ (E + 53) = 2 ^ 53 * (2 : ℚ) ^ E := by
      rw [zpow_add₀ (by norm_num), mul_comm]
      norm_cast
    rw [this]
    calc x ≤ M * (2 : ℚ) ^ E := h
      _ < 2 ^ 53 * (2 : ℚ) ^ E := mul_lt_mul_of_pos_right hM' hpE
  have hle : f64Exp x ≤ E := f64Exp_le x E hx hE hhi
  obtain ⟨k, hk⟩ := Int.eq_ofNat_of_zero_le (sub_nonneg.mpr hle)
  have hEk : E = f64Exp x + k := by omega
  have hp : (0 : ℚ) < (2 : ℚ) ^ f64Exp x := zpow_pos (by norm_num) _
  have hsplit : (2 : ℚ) ^ E = (2 : ℚ) ^ f64Exp x * 2 ^ k := by
    rw [hEk, zpow_add₀ (by norm_num), zpow_natCast]
  have hq : x / (2 : ℚ) ^ f64Exp x ≤ ((M * 2 ^ k : ℕ) : ℤ) := by
    rw [div_le_iff₀ hp]
    push_cast
    rw [hsplit] at h
    linarith
  have hr := roundHalfEven_le _ _ hq
  have hr' : (roundHalfEven (x / (2 : ℚ) ^ f64Exp x) : ℚ) ≤ (M : ℚ) * 2 ^ k := by
    exact_mod_cast hr
  rw [toF64_pos_def x hx, hsplit]
  calc (roundHalfEven (x / (2 : ℚ) ^ f64Exp x) : ℚ) * (2 : ℚ) ^ f64Exp x
      ≤ ((M : ℚ) * 2 ^ k) * (2 : ℚ) ^ f64Exp x := mul_le_mul_of_nonneg_right hr' hp.le
    _ = M * ((2 : ℚ) ^ f64Exp x * 2 ^ k) := by ring

theorem rep_le_toF64 (x : ℚ) (M : ℕ) (E : ℤ) (hx : 0 < x) (hE : -1074 ≤ E)
    (h : M * (2 : ℚ) ^ E ≤ x) (hhi : x < (2 : ℚ) ^ (E + 53)) : M * (2 : ℚ) ^ E ≤ toF64 x := by
  have hle : f64Exp x ≤ E := f64Exp_le x E hx hE hhi
  obtain ⟨k, hk⟩ := Int.eq_ofNat_of_zero_le (sub_nonneg.mpr hle)
  have hEk : E = f64Exp x + k := by omega
  have hp : (0 : ℚ) < (2 : ℚ) ^ f64Exp x := zpow_pos (by norm_num) _
  have hsplit : (2 : ℚ) ^ E = (2 : ℚ) ^ f64Exp x * 2 ^ k := by
    rw [hEk, zpow_add₀ (by norm_num), zpow_natCast]
  have hq : (((M * 2 ^ k : ℕ) : ℤ) : ℚ) ≤ x / (2 : ℚ) ^ f64Exp x := by
    rw [le_div_iff₀ hp]
    push_cast
    rw [hsplit] at h
    linarith
  have hr := le_roundHalfEven _ _ hq
  have hr' : (M : ℚ) * 2 ^ k ≤ (roundHalfEven (x / (2 : ℚ) ^ f64Exp x) : ℚ) := by
    exact_mod_cast hr
  rw [toF64_pos_def x hx, hsplit]
  calc M * ((2 : ℚ) ^ f64Exp x * 2 ^ k) = ((M : ℚ) * 2 ^ k) * (2 : ℚ) ^ f64Exp x := by ring
    _ ≤ (roundHalfEven (x / (2 : ℚ) ^ f64Exp x) : ℚ) * (2 : ℚ) ^ f64Exp x :=
        mul_le_mul_of_nonneg_right hr' hp.le

theorem toF64_rep (M : ℕ) (E : ℤ) (hE : -1074 ≤ E) (hM : M < 2 ^ 53) :
    toF64 (M * (2 : ℚ) ^ E) = M * (2 : ℚ) ^ E := by
  have hpE : (0 : ℚ) < (2 : ℚ) ^ E := zpow_pos (by norm_num) _
  rcases Nat.eq_zero_or_pos M with h0 | hpos
  · subst h0
    simp [toF64]
  · have hx : (0 : ℚ) < M * (2 : ℚ) ^ E := mul_pos (by exact_mod_cast hpos) hpE
    have hhi : (M : ℚ) * (2 : ℚ) ^ E < (2 : ℚ) ^ (E + 53) := by
      have hM' : (M : ℚ) < 2 ^ 53 := by exact_mod_cast hM
      have : (2 : ℚ) ^ (E + 53) = 2 ^ 53 * (2 : ℚ) ^ E := by
        rw [zpow_add₀ (by norm_num), mul_comm]
        norm_cast
      rw [this]
      exact mul_lt_mul_of_pos_right hM' hpE
    exact le_antisymm (toF64_le_rep _ M E hx hE hM le_rfl) (rep_le_toF64 _ M E hx hE le_rfl hhi)

theorem toF64_natCast (n : ℕ) (hn : n < 2 ^ 53) : toF64 (n : ℚ) = n := by
  have h := toF64_rep n 0 (by norm_num) hn
  simpa using h

theorem toF64_mem_Icc (x : ℚ) (M : ℕ) (hM : M < 2 ^ 53) (h0 : 0 ≤ x) (h1 : x ≤ M) :
    0 ≤ toF64 x ∧ toF64 x ≤ M := by
  refine ⟨toF64_nonneg x h0, ?_⟩
  rcases h0.lt_or_eq with h | h
  · have := toF64_le_rep x M 0 h (by norm_num) hM (by simpa using h1)
    simpa using this
  · rw [← h]
    simp [toF64]

theorem f64Mul_mem_Icc (p : ℚ) (h0 : 0 ≤ p) (h1 : p ≤ 1) :
    0 ≤ f64Mul p 100 ∧ f64Mul p 100 ≤ 100 := by
  obtain ⟨ha, hb⟩ := toF64_mem_Icc p 1 (by norm_num) h0 (by simpa using h1)
  have h100 : toF64 100 = 100 := by
    have := toF64_natCast 100 (by norm_num)
    simpa using this
  unfold f64Mul
  rw [h100]
  have hb' : toF64 p ≤ 1 := by simpa using hb
  have := toF64_mem_Icc (toF64 p * 100) 100 (by norm_num) (by positivity) (by
    push_cast
    linarith)
  simpa using this

theorem roundHalfEven_abs_sub_le (t : ℚ) : |(roundHalfEven t : ℚ) - t| ≤ 1 / 2 := by
  have h1 : (⌊t⌋ : ℚ) ≤ t := Int.floor_le t
  have h2 : t < ⌊t⌋ + 1 := Int.lt_floor_add_one t
  unfold roundHalfEven
  simp only
  rw [abs_le]
  split_ifs with ha hb hc
  · constructor <;> linarith
  · push_cast
    constructor <;> linarith
  · have hr : t - (⌊t⌋ : ℚ) = 1 / 2 := le_antisymm (not_lt.mp hb) (not_lt.mp ha)
    constructor <;> linarith
  · have hr : t - (⌊t⌋ : ℚ) = 1 / 2 := le_antisymm (not_lt.mp hb) (not_lt.mp ha)
    push_cast
    constructor <;> linarith

theorem toF64_abs_sub_le (x : ℚ) (E : ℤ) (hx : 0 ≤ x) (hE : -1074 ≤ E)
    (hhi : x < (2 : ℚ) ^ (E + 53)) : |toF64 x - x| ≤ (2 : ℚ) ^ E / 2 := by
  have hpE : (0 : ℚ) < (2 : ℚ) ^ E := zpow_pos (by norm_num) _
  rcases hx.lt_or_eq with h | h
  · have hp : (0 : ℚ) < (2 : ℚ) ^ f64Exp x := zpow_pos (by norm_num) _
    have hle : (2 : ℚ) ^ f64Exp x ≤ (2 : ℚ) ^ E :=
      zpow_le_zpow_right₀ (by norm_num) (f64Exp_le x E h hE hhi)
    have herr := roundHalfEven_abs_sub_le (x / (2 : ℚ) ^ f64Exp x)
    have hfac : toF64 x - x
        = ((roundHalfEven (x / (2 : ℚ) ^ f64Exp x) : ℚ) - x / (2 : ℚ) ^ f64Exp x)
          * (2 : ℚ) ^ f64Exp x := by
      rw [toF64_pos_def x h]
      field_simp
    rw [hfac, abs_mul, abs_of_pos hp]
    calc |(roundHalfEven (x / (2 : ℚ) ^ f64Exp x) : ℚ) - x / (2 : ℚ) ^ f64Exp x|
          * (2 : ℚ) ^ f64Exp x
        ≤ 1 / 2 * (2 : ℚ) ^ f64Exp x := mul_le_mul_of_nonneg_right herr hp.le
      _ ≤ 1 / 2 * (2 : ℚ) ^ E := mul_le_mul_of_nonneg_left hle (by norm_num)
      _ = (2 : ℚ) ^ E / 2 := by ring
  · rw [← h]
    simp [toF64]
    exact (div_pos hpE (by norm_num)).le

theorem f64Mul_abs_sub_le (p : ℚ) (h0 : 0 ≤ p) (h1 : p ≤ 1) :
    |f64Mul p 100 - p * 100| ≤ (2 : ℚ) ^ (-45 : ℤ) := by
  obtain ⟨ha, hb⟩ := toF64_mem_Icc p 1 (by norm_num) h0 (by simpa using h1)
  have hb' : toF64 p ≤ 1 := by simpa using hb
  have h100 : toF64 100 = 100 := by
    have := toF64_natCast 100 (by norm_num)
    simpa using this
  have e1 : |toF64 p - p| ≤ (2 : ℚ) ^ (-52 : ℤ) / 2 :=
    toF64_abs_sub_le p (-52) h0 (by norm_num) (by norm_num; linarith)
  have e2 : |toF64 (toF64 p * 100) - toF64 p * 100| ≤ (2 : ℚ) ^ (-46 : ℤ) / 2 :=
    toF64_abs_sub_le (toF64 p * 100) (-46) (by positivity) (by norm_num) (by norm_num; linarith)
  unfold f64Mul
  rw [h100]
  have hsplit : toF64 (toF64 p * 100) - p * 100
      = (toF64 (toF64 p * 100) - toF64 p * 100) + 100 * (toF64 p - p) := by ring
  rw [hsplit]
  have e3 : |100 * (toF64 p - p)| ≤ 100 * ((2 : ℚ) ^ (-52 : ℤ) / 2) := by
    rw [abs_mul, abs_of_pos (by norm_num : (0 : ℚ) < 100)]
    exact mul_le_mul_of_nonneg_left e1 (by norm_num)
  calc |toF64 (toF64 p * 100) - toF64 p * 100 + 100 * (toF64 p - p)|
      ≤ |toF64 (toF64 p * 100) - toF64 p * 100| + |100 * (toF64 p - p)| := abs_add _ _
    _ ≤ (2 : ℚ) ^ (-46 : ℤ) / 2 + 100 * ((2 : ℚ) ^ (-52 : ℤ) / 2) := add_le_add e2 e3
    _ ≤ (2 : ℚ) ^ (-45 : ℤ) := by norm_num

theorem toF64_hundred : toF64 100 = 100 := by
  have h := toF64_natCast 100 (by norm_num)
  simpa using h

theorem f64Mul_nonneg (p : ℚ) (h0 : 0 ≤ p) : 0 ≤ f64Mul p 100 := by
  unfold f64Mul
  rw [toF64_hundred]
  exact toF64_nonneg _ (mul_nonneg (toF64_nonneg p h0) (by norm_num))

/-- The double nearest to 0.5 is 0.5, and `0.5 * 100` is 50. -/
theorem f64Mul_half : f64Mul 0.5 100 = 50 := by
  have h1 : toF64 0.5 = 0.5 := by
    have h := toF64_rep 1 (-1) (by norm_num) (by norm_num)
    norm_num at h ⊢
    exact h
  have h2 : toF64 50 = 50 := by
    have h := toF64_natCast 50 (by norm_num)
    simpa using h
  unfold f64Mul
  rw [toF64_hundred, h1]
  norm_num
  exact h2

/-- The double nearest to 0.3 is 5404319552844595 / 2^54; its product with
100 lies within half a unit in the last place of 30 and rounds to 30. -/
theorem f64Mul_three_tenths : f64Mul 0.3 100 = 30 := by
  have h1 : toF64 0.3 = (5404319552844595 : ℤ) * (2 : ℚ) ^ (-54 : ℤ) :=
    toF64_eq _ _ _ (by norm_num) (by norm_num) (by norm_num) (by norm_num) (by norm_num)
      (by norm_num)
  have h2 : toF64 ((5404319552844595 : ℤ) * (2 : ℚ) ^ (-54 : ℤ) * 100)
      = (8444249301319680 : ℤ) * (2 : ℚ) ^ (-48 : ℤ) :=
    toF64_eq _ _ _ (by norm_num) (by norm_num) (by norm_num) (by norm_num) (by norm_num)
      (by norm_num)
  unfold f64Mul
  rw [toF64_hundred, h1, h2]
  norm_num

/-- The double nearest to 0.29 is 5224175567749775 / 2^54; its product with
100 rounds down to 8162774324609023 / 2^48, just below 29. -/
theorem f64Mul_twentynine_hundredths :
    f64Mul 0.29 100 = (8162774324609023 : ℤ) * (2 : ℚ) ^ (-48 : ℤ) := by
  have h1 : toF64 0.29 = (5224175567749775 : ℤ) * (2 : ℚ) ^ (-54 : ℤ) :=
    toF64_eq _ _ _ (by norm_num) (by norm_num) (by norm_num) (by norm_num) (by norm_num)
      (by norm_num)
  have h2 : toF64 ((5224175567749775 : ℤ) * (2 : ℚ) ^ (-54 : ℤ) * 100)
      = (8162774324609023 : ℤ) * (2 : ℚ) ^ (-48 : ℤ) :=
    toF64_eq _ _ _ (by norm_num) (by norm_num) (by norm_num) (by norm_num) (by norm_num)
      (by norm_num)
  unfold f64Mul
  rw [toF64_hundred, h1, h2]

end float64

/-! ## Charge controller: voltage and percentage -/

namespace bq25895

/-- The bit-by-bit sum of `parseVoltage` is the offset plus 20 mV per count
of the low seven bits. -/
theorem parseVoltage_eq (b : Nat) :
    parseVoltage b = 2.304 + 0.020 * ((b % 128 : Nat) : ℚ) := by
  have h6 : b / 2 ^ 6 % 2 < 2 := Nat.mod_lt _ (by decide)
  have h5 : b / 2 ^ 5 % 2 < 2 := Nat.mod_lt _ (by decide)
  have h4 : b / 2 ^ 4 % 2 < 2 := Nat.mod_lt _ (by decide)
  have h3 : b / 2 ^ 3 % 2 < 2 := Nat.mod_lt _ (by decide)
  have h2 : b / 2 ^ 2 % 2 < 2 := Nat.mod_lt _ (by decide)
  have h1 : b / 2 ^ 1 % 2 < 2 := Nat.mod_lt _ (by decide)
  have h0 : b / 2 ^ 0 % 2 < 2 := Nat.mod_lt _ (by decide)
  have hsum : b % 128 = 64 * (b / 2 ^ 6 % 2) + 32 * (b / 2 ^ 5 % 2) + 16 * (b / 2 ^ 4 % 2)
      + 8 * (b / 2 ^ 3 % 2) + 4 * (b / 2 ^ 2 % 2) + 2 * (b / 2 ^ 1 % 2) + b / 2 ^ 0 % 2 := by
    omega
  unfold parseVoltage
  simp only [shiftRight_and_one]
  rw [ite_bit_add _ h6, ite_bit_add _ h5, ite_bit_add _ h4, ite_bit_add _ h3,
    ite_bit_add _ h2, ite_bit_add _ h1, ite_bit_add _ h0, hsum]
  push_cast
  ring

/-- C6: with voltages as exact rationals, the voltage reconstructed by
`GetStatus` from a 7-bit ADC value is monotonically non-decreasing in that
value and always lies in [2.304, 4.844]. -/
theorem C6_voltage_monotone_bounded (a b : Nat) (hab : a ≤ b) (hb : b < 128) :
    parseVoltage a ≤ parseVoltage b ∧
      (2.304 : ℚ) ≤ parseVoltage b ∧ parseVoltage b ≤ (4.844 : ℚ) := by
  have ha : a < 128 := lt_of_le_of_lt hab hb
  rw [parseVoltage_eq a, parseVoltage_eq b, Nat.mod_eq_of_lt ha, Nat.mod_eq_of_lt hb]
  have h1 : (a : ℚ) ≤ (b : ℚ) := by exact_mod_cast hab
  have h2 : (b : ℚ) ≤ 127 := by exact_mod_cast Nat.le_of_lt_succ hb
  have h3 : (0 : ℚ) ≤ (b : ℚ) := by exact_mod_cast Nat.zero_le b
  refine ⟨?_, ?_, ?_⟩
  · linarith
  · linarith
  · norm_num
    linarith

/-- C6 at the ADC values 93 and 94 (4.164 V and 4.184 V). -/
theorem C6_voltage_monotone_bounded_witness :
    (93 ≤ 94 ∧ 94 < 128) ∧ parseVoltage 93 ≤ parseVoltage 94 ∧
      (2.304 : ℚ) ≤ parseVoltage 94 ∧ parseVoltage 94 ≤ (4.844 : ℚ) :=
  ⟨by decide, C6_voltage_monotone_bounded 93 94 (by decide) (by decide)⟩

/-- The clamped percentage: range and the two saturated regions. -/
theorem percentOfVoltage_spec (v : ℚ) :
    0 ≤ percentOfVoltage v ∧ percentOfVoltage v ≤ 1 ∧
      (v ≤ 3.5 → percentOfVoltage v = 0) ∧ (4.184 ≤ v → percentOfVoltage v = 1) := by
  have hlin : bqTranslate v 3.5 4.184 0 1 = (v - 3.5) / 0.684 := by
    simp only [bqTranslate]
    norm_num
  unfold percentOfVoltage
  simp only [hlin]
  have hpos : (0 : ℚ) < 0.684 := by norm_num
  refine ⟨?_, ?_, ?_, ?_⟩
  · split_ifs <;> linarith
  · split_ifs <;> linarith
  · intro hv
    have h0 : (v - 3.5) / 0.684 ≤ 0 := div_nonpos_of_nonpos_of_nonneg (by linarith) hpos.le
    rcases h0.lt_or_eq with h | h
    · simp [h]
    · simp [h]
  · intro hv
    have h1 : 1 ≤ (v - 3.5) / 0.684 := by
      rw [le_div_iff₀ hpos]
      norm_num
      linarith
    have hn : ¬ (v - 3.5) / 0.684 < 0 := by linarith
    rcases h1.lt_or_eq with h | h
    · simp [hn, h]
    · simp [hn, ← h]

/-- The percentage decoded from a voltage byte is 0, 1, or `k / 171` for
some `k` in 1..170. -/
theorem percentOfVoltage_byte_cases (v : Nat) :
    percentOfVoltage (parseVoltage v) = 0 ∨ percentOfVoltage (parseVoltage v) = 1 ∨
      ∃ k : Nat, 1 ≤ k ∧ k ≤ 170 ∧ percentOfVoltage (parseVoltage v) = (k : ℚ) / 171 := by
  have ha : v % 128 < 128 := Nat.mod_lt _ (by decide)
  have hlin : bqTranslate (parseVoltage v) 3.5 4.184 0 1
      = (5 * ((v % 128 : Nat) : ℚ) - 299) / 171 := by
    rw [parseVoltage_eq]
    simp only [bqTranslate]
    norm_num
    ring
  unfold percentOfVoltage
  simp only [hlin]
  rcases Nat.lt_or_ge (5 * (v % 128)) 299 with h | h
  · left
    have hq : (5 * ((v % 128 : Nat) : ℚ) - 299) / 171 < 0 := by
      have : (5 * ((v % 128 : Nat) : ℚ)) < 299 := by exact_mod_cast h
      apply div_neg_of_neg_of_pos <;> linarith
    simp [hq]
  · have hq0 : ¬ (5 * ((v % 128 : Nat) : ℚ) - 299) / 171 < 0 := by
      have : (299 : ℚ) ≤ 5 * ((v % 128 : Nat) : ℚ) := by exact_mod_cast h
      rw [not_lt]
      apply div_nonneg <;> linarith
    rcases Nat.lt_or_ge (5 * (v % 128)) 470 with h2 | h2
    · right
      right
      refine ⟨5 * (v % 128) - 299, by omega, by omega, ?_⟩
      have hle : ¬ (5 * ((v % 128 : Nat) : ℚ) - 299) / 171 > 1 := by
        have : (5 * ((v % 128 : Nat) : ℚ)) < 470 := by exact_mod_cast h2
        rw [gt_iff_lt, not_lt, div_le_iff₀ (by norm_num)]
        linarith
      rw [if_neg hq0, if_neg hle, Nat.cast_sub h]
      push_cast
      ring
    · right
      left
      have hge : (470 : ℚ) ≤ 5 * ((v % 128 : Nat) : ℚ) := by exact_mod_cast h2
      rw [if_neg hq0]
      split_ifs with h3
      · rfl
      · have h4 : (5 * ((v % 128 : Nat) : ℚ) - 299) / 171 ≤ 1 := not_lt.mp h3
        rw [div_le_iff₀ (by norm_num)] at h4
        have h5 : 5 * ((v % 128 : Nat) : ℚ) = 470 := by linarith
        rw [h5]
        norm_num

/-- For the percentage decoded from a voltage byte, truncating the binary64
product with 100 gives the same integer as truncating the exact product. -/
theorem f64Mul_percent_goInt (v : Nat) :
    goInt (f64Mul (percentOfVoltage (parseVoltage v)) 100)
      = goInt (percentOfVoltage (parseVoltage v) * 100) := by
  rcases percentOfVoltage_byte_cases v with h | h | ⟨k, hk1, hk2, h⟩
  · rw [h]
    have : f64Mul 0 100 = 0 := by simp [f64Mul, toF64]
    rw [this]
    norm_num
  · rw [h]
    have h1 : toF64 1 = 1 := by
      have := toF64_natCast 1 (by norm_num)
      simpa using this
    have : f64Mul 1 100 = 100 := by
      unfold f64Mul
      rw [toF64_hundred, h1]
      norm_num
      exact toF64_hundred
    rw [this]
    norm_num
  · rw [h]
    have hp0 : (0 : ℚ) ≤ (k : ℚ) / 171 := by positivity
    have hp1 : (k : ℚ) / 171 ≤ 1 := by
      rw [div_le_iff₀ (by norm_num)]
      have : (k : ℚ) ≤ 170 := by exact_mod_cast hk2
      linarith
    have herr := f64Mul_abs_sub_le _ hp0 hp1
    rw [abs_le] at herr
    obtain ⟨n, j, hdm, hj1, hj2⟩ :
        ∃ n j : Nat, 100 * k = 171 * n + j ∧ 1 ≤ j ∧ j ≤ 170 :=
      ⟨100 * k / 171, 100 * k % 171, by omega, by omega, by omega⟩
    have hq : (100 : ℚ) * k = 171 * n + j := by exact_mod_cast hdm
    have hx : (k : ℚ) / 171 * 100 = n + (j : ℚ) / 171 := by
      field_simp
      linarith
    have hj1' : (1 : ℚ) ≤ (j : ℚ) := by exact_mod_cast hj1
    have hj2' : (j : ℚ) ≤ 170 := by exact_mod_cast hj2
    have hfrac1 : (1 : ℚ) / 171 ≤ (j : ℚ) / 171 :=
      div_le_div_of_nonneg_right hj1' (by norm_num)
    have hfrac2 : (j : ℚ) / 171 ≤ 170 / 171 :=
      div_le_div_of_nonneg_right hj2' (by norm_num)
    have heps : (2 : ℚ) ^ (-45 : ℤ) < 1 / 171 := by norm_num
    have hf1 : ⌊f64Mul ((k : ℚ) / 171) 100⌋ = (n : ℤ) := by
      rw [Int.floor_eq_iff, Int.cast_natCast]
      constructor <;> linarith [herr.1, herr.2]
    have hf2 : ⌊(k : ℚ) / 171 * 100⌋ = (n : ℤ) := by
      rw [Int.floor_eq_iff, Int.cast_natCast]
      constructor <;> linarith
    rw [goInt_of_nonneg (f64Mul_nonneg _ hp0), goInt_of_nonneg (by positivity), hf1, hf2]

/-- C7: for every rational voltage, the percentage computed by
`bqTranslate v 3.5 4.184 0 1` followed by the two clamps lies in [0,1]; it
is 0 for every voltage at or below 3.5 and 1 for every voltage at or above
4.184. -/
theorem C7_percentage_clamped (v : ℚ) :
    0 ≤ percentOfVoltage v ∧ percentOfVoltage v ≤ 1 ∧
      (v ≤ 3.5 → percentOfVoltage v = 0) ∧ (4.184 ≤ v → percentOfVoltage v = 1) :=
  percentOfVoltage_spec v

/-- C7 at 3.0 V (below the range) and 5.0 V (above the range). -/
theorem C7_percentage_clamped_witness :
    percentOfVoltage 3.0 = 0 ∧ percentOfVoltage 5.0 = 1 :=
  ⟨(C7_percentage_clamped 3.0).2.2.1 (by norm_num),
    (C7_percentage_clamped 5.0).2.2.2 (by norm_num)⟩

/-! ## Charge controller: status byte -/

theorem parsePower_eq (s : Nat) :
    parsePower s = if s.testBit 2 then "Connected" else "Disconnected" := by
  simp only [parsePower, shiftRight_and_one, Nat.testBit_to_div_mod]
  simp

theorem parseCharge_eq (s : Nat) :
    parseCharge s =
      match s.testBit 4, s.testBit 3 with
      | false, false => "Not Charging"
      | false, true => "Pre-Charge"
      | true, false => "Charging"
      | true, true => "Charging done" := by
  have hk : s / 2 ^ 3 % 4 = 0 ∨ s / 2 ^ 3 % 4 = 1 ∨ s / 2 ^ 3 % 4 = 2 ∨ s / 2 ^ 3 % 4 = 3 := by
    omega
  rcases hk with h | h | h | h
  · have h4 : s / 2 ^ 4 % 2 = 0 := by omega
    have h3 : s / 2 ^ 3 % 2 = 0 := by omega
    simp only [parseCharge, shiftRight_and_three, Nat.testBit_to_div_mod, h, h4, h3]
    simp
  · have h4 : s / 2 ^ 4 % 2 = 0 := by omega
    have h3 : s / 2 ^ 3 % 2 = 1 := by omega
    simp only [parseCharge, shiftRight_and_three, Nat.testBit_to_div_mod, h, h4, h3]
    simp
  · have h4 : s / 2 ^ 4 % 2 = 1 := by omega
    have h3 : s / 2 ^ 3 % 2 = 0 := by omega
    simp only [parseCharge, shiftRight_and_three, Nat.testBit_to_div_mod, h, h4, h3]
    simp
  · have h4 : s / 2 ^ 4 % 2 = 1 := by omega
    have h3 : s / 2 ^ 3 % 2 = 1 := by omega
    simp only [parseCharge, shiftRight_and_three, Nat.testBit_to_div_mod, h, h4, h3]
    simp

theorem parsePower_mask (s : Nat) : parsePower (s &&& 0b00011100) = parsePower s := by
  have h2 : Nat.testBit 0b00011100 2 = true := by decide
  rw [parsePower_eq, parsePower_eq, Nat.testBit_and, h2, Bool.and_true]

theorem parseCharge_mask (s : Nat) : parseCharge (s &&& 0b00011100) = parseCharge s := by
  have h3 : Nat.testBit 0b00011100 3 = true := by decide
  have h4 : Nat.testBit 0b00011100 4 = true := by decide
  rw [parseCharge_eq, parseCharge_eq, Nat.testBit_and, Nat.testBit_and, h3, h4,
    Bool.and_true, Bool.and_true]

/-! ## Charge controller: `GetStatus` on the bus -/

/-- When its four transactions succeed, `GetStatus` returns the decoding of
the two bytes read, and no error. -/
theorem GetStatus_of_done (b : Dev) (r0 rs rv r3 : List Nat)
    (h0 : b.outcome b.count = .done r0) (h1 : b.outcome (b.count + 1) = .done rs)
    (h2 : b.outcome (b.count + 2) = .done rv) (h3 : b.outcome (b.count + 3) = .done r3) :
    (GetStatus b).2 = (some (decodeStatus (rs.getD 0 0 % 256) (rv.getD 0 0 % 256)), none) := by
  simp [GetStatus, writeReg, readReg, Dev.Tx, h0, h1, h2, h3]

/-- An error of `GetStatus` is exactly a failure among its first four
transactions, and comes with a nil status. -/
theorem GetStatus_error_iff (b : Dev) :
    ((GetStatus b).2.2.isSome = true ↔
        ¬ ((b.outcome b.count).isDone = true ∧ (b.outcome (b.count + 1)).isDone = true ∧
          (b.outcome (b.count + 2)).isDone = true ∧ (b.outcome (b.count + 3)).isDone = true)) ∧
      ((GetStatus b).2.2.isSome = true ↔ (GetStatus b).2.1 = none) := by
  cases h0 : b.outcome b.count <;> cases h1 : b.outcome (b.count + 1) <;>
    cases h2 : b.outcome (b.count + 2) <;> cases h3 : b.outcome (b.count + 3) <;>
    simp [GetStatus, writeReg, readReg, Dev.Tx, TxOutcome.isDone, h0, h1, h2, h3]

/-- C1 (as stated, refuted): it is not the case that `GetStatus` returns an
error only when the ADC-start write, the status read or the battery-voltage
read fails.  On `devStopFails` those three succeed, the ADC-stop write
fails, and `GetStatus` returns that error and a nil status. -/
theorem C1_stop_failure_is_error :
    ¬ ∀ b : Dev, ((GetStatus b).2.2.isSome = true ↔
      ¬ ((b.outcome b.count).isDone = true ∧ (b.outcome (b.count + 1)).isDone = true ∧
        (b.outcome (b.count + 2)).isDone = true)) := by
  intro h
  have hb := h samples.devStopFails
  have herr : (GetStatus samples.devStopFails).2 = (none, some "stop write failed") := by
    simp [GetStatus, writeReg, readReg, Dev.Tx, samples.devStopFails]
  rw [herr] at hb
  simp [samples.devStopFails, TxOutcome.isDone] at hb

/-- When one of its four required transactions fails, `GetStatus` returns
the error of the first one that fails, with a nil status. -/
theorem GetStatus_first_failure (b : Dev) :
    (∀ e, b.outcome b.count = .fail e → (GetStatus b).2 = (none, some e)) ∧
      (∀ e, (b.outcome b.count).isDone = true → b.outcome (b.count + 1) = .fail e →
        (GetStatus b).2 = (none, some e)) ∧
      (∀ e, (b.outcome b.count).isDone = true → (b.outcome (b.count + 1)).isDone = true →
        b.outcome (b.count + 2) = .fail e → (GetStatus b).2 = (none, some e)) ∧
      (∀ e, (b.outcome b.count).isDone = true → (b.outcome (b.count + 1)).isDone = true →
        (b.outcome (b.count + 2)).isDone = true → b.outcome (b.count + 3) = .fail e →
        (GetStatus b).2 = (none, some e)) := by
  cases h0 : b.outcome b.count <;> cases h1 : b.outcome (b.count + 1) <;>
    cases h2 : b.outcome (b.count + 2) <;> cases h3 : b.outcome (b.count + 3) <;>
    simp [GetStatus, writeReg, readReg, Dev.Tx, TxOutcome.isDone, h0, h1, h2, h3]

/-- C1 (amended): for every outcome of the bus transactions, `GetStatus`
returns an error if and only if the ADC-start write, the status read, the
battery-voltage read or the ADC-stop write fails; the outcome of the
battery-switch write plays no part, an error comes with a nil status while no
error comes with a status, and the error returned is the error of the first
of the four that fails: in particular, when the first three succeed and the
ADC-stop write fails with `e`, `GetStatus` returns `e` and no status. -/
theorem C1_error_iff_required_transaction_fails (b : Dev) :
    ((GetStatus b).2.2.isSome = true ↔
        ¬ ((b.outcome b.count).isDone = true ∧ (b.outcome (b.count + 1)).isDone = true ∧
          (b.outcome (b.count + 2)).isDone = true ∧ (b.outcome (b.count + 3)).isDone = true)) ∧
      ((GetStatus b).2.2.isSome = true ↔ (GetStatus b).2.1 = none) ∧
      (∀ e, b.outcome b.count = .fail e → (GetStatus b).2 = (none, some e)) ∧
      (∀ e, (b.outcome b.count).isDone = true → b.outcome (b.count + 1) = .fail e →
        (GetStatus b).2 = (none, some e)) ∧
      (∀ e, (b.outcome b.count).isDone = true → (b.outcome (b.count + 1)).isDone = true →
        b.outcome (b.count + 2) = .fail e → (GetStatus b).2 = (none, some e)) ∧
      (∀ e, (b.outcome b.count).isDone = true → (b.outcome (b.count + 1)).isDone = true →
        (b.outcome (b.count + 2)).isDone = true → b.outcome (b.count + 3) = .fail e →
        (GetStatus b).2 = (none, some e)) :=
  ⟨(GetStatus_error_iff b).1, (GetStatus_error_iff b).2, GetStatus_first_failure b⟩

/-- C1 (amended) on `devStopFails`: the first three transactions succeed,
the ADC-stop write fails, and `GetStatus` returns that write's error and no
status. -/
theorem C1_error_iff_required_transaction_fails_witness :
    (GetStatus samples.devStopFails).2 = (none, some "stop write failed") :=
  (C1_error_iff_required_transaction_fails samples.devStopFails).2.2.2.2.2
    "stop write failed" rfl rfl rfl rfl

/-- C9: for every status byte `s`, `GetStatus` decodes the input power from
bit 2 (`Connected` iff set) and the charge stage from bits 4 and 3 by the
table 00, 01, 10, 11 to `Not Charging`, `Pre-Charge`, `Charging`,
`Charging done`; clearing every other bit of `s` gives the same result, and
the stage is always one of these four. -/
theorem C9_status_byte_decode (b : Dev) (r0 r3 : List Nat) (s v : Nat) (hs : s < 256)
    (h0 : b.outcome b.count = .done r0) (h1 : b.outcome (b.count + 1) = .done [s])
    (h2 : b.outcome (b.count + 2) = .done [v]) (h3 : b.outcome (b.count + 3) = .done r3) :
    ∃ st, (GetStatus b).2 = (some st, none) ∧
      st.Input = (if s.testBit 2 then "Connected" else "Disconnected") ∧
      st.ChargeStatus =
        (match s.testBit 4, s.testBit 3 with
          | false, false => "Not Charging"
          | false, true => "Pre-Charge"
          | true, false => "Charging"
          | true, true => "Charging done") ∧
      st.Input = parsePower (s &&& 0b00011100) ∧
      st.ChargeStatus = parseCharge (s &&& 0b00011100) ∧
      st.ChargeStatus ∈ ["Not Charging", "Pre-Charge", "Charging", "Charging done"] := by
  refine ⟨_, GetStatus_of_done b r0 [s] [v] r3 h0 h1 h2 h3, ?_⟩
  have hs' : [s].getD 0 0 % 256 = s := by simpa using Nat.mod_eq_of_lt hs
  rw [hs']
  refine ⟨parsePower_eq s, parseCharge_eq s, (parsePower_mask s).symm,
    (parseCharge_mask s).symm, ?_⟩
  show parseCharge s ∈ _
  rw [parseCharge_eq]
  cases s.testBit 4 <;> cases s.testBit 3 <;> simp

/-- C9 on a device whose status register reads 0b00010100 (bit 2 set,
stage bits 10). -/
theorem C9_status_byte_decode_witness :
    ∃ st, (GetStatus (samples.devReading 0b00010100 94)).2 = (some st, none) ∧
      st.Input = "Connected" ∧ st.ChargeStatus = "Charging" := by
  obtain ⟨st, h, hi, hc, -⟩ :=
    C9_status_byte_decode (samples.devReading 0b00010100 94) [94] [94] 0b00010100 94
      (by decide) rfl rfl rfl rfl
  exact ⟨st, h, by simpa using hi, by simpa using hc⟩

/-- C10: for every status byte and voltage byte, the minutes remaining
returned by `GetStatus` are -1 whenever the input power is `Connected`, and
otherwise the floor of `percentage * 60 * 2500 / 2000`, which lies in
0..75. -/
theorem C10_time_remaining (b : Dev) (r0 r3 : List Nat) (s v : Nat)
    (hs : s < 256) (hv : v < 256)
    (h0 : b.outcome b.count = .done r0) (h1 : b.outcome (b.count + 1) = .done [s])
    (h2 : b.outcome (b.count + 2) = .done [v]) (h3 : b.outcome (b.count + 3) = .done r3) :
    ∃ st, (GetStatus b).2 = (some st, none) ∧
      st.BatteryPercentage = percentOfVoltage (parseVoltage v) ∧
      (st.Input = "Connected" → st.TimeRemaining = -1) ∧
      (st.Input ≠ "Connected" →
        st.TimeRemaining = ⌊st.BatteryPercentage * 60 * 2500 / 2000⌋ ∧
          0 ≤ st.TimeRemaining ∧ st.TimeRemaining ≤ 75) := by
  refine ⟨_, GetStatus_of_done b r0 [s] [v] r3 h0 h1 h2 h3, ?_⟩
  have hs' : [s].getD 0 0 % 256 = s := by simpa using Nat.mod_eq_of_lt hs
  have hv' : [v].getD 0 0 % 256 = v := by simpa using Nat.mod_eq_of_lt hv
  rw [hs', hv']
  obtain ⟨hp0, hp1, -⟩ := percentOfVoltage_spec (parseVoltage v)
  have hx0 : 0 ≤ percentOfVoltage (parseVoltage v) * 60 * 2500 / 2000 := by
    have : percentOfVoltage (parseVoltage v) * 60 * 2500 / 2000
        = percentOfVoltage (parseVoltage v) * 75 := by ring
    rw [this]
    exact mul_nonneg hp0 (by norm_num)
  have hx1 : percentOfVoltage (parseVoltage v) * 60 * 2500 / 2000 < 76 := by
    have : percentOfVoltage (parseVoltage v) * 60 * 2500 / 2000
        = percentOfVoltage (parseVoltage v) * 75 := by ring
    rw [this]
    linarith
  have hcap : batCapacity = 2500 := by norm_num [batCapacity]
  have hdraw : currentDraw = 2000 := by norm_num [currentDraw]
  refine ⟨rfl, ?_, ?_⟩
  · intro hc
    have hc' : parsePower s = "Connected" := hc
    simp [decodeStatus, timeRemaining, hc']
  · intro hc
    have hc' : ¬ parsePower s = "Connected" := hc
    have ht : (decodeStatus s v).TimeRemaining
        = ⌊percentOfVoltage (parseVoltage v) * 60 * 2500 / 2000⌋ := by
      simp only [decodeStatus, timeRemaining, hc', if_false, hcap, hdraw]
      exact goInt_of_nonneg hx0
    refine ⟨ht, ?_, ?_⟩
    · rw [ht]
      exact Int.floor_nonneg.mpr hx0
    · rw [ht]
      have : ⌊percentOfVoltage (parseVoltage v) * 60 * 2500 / 2000⌋ < 76 :=
        Int.floor_lt.mpr (by exact_mod_cast hx1)
      omega

/-- C10 on a device reading status 0b00000100 (input connected) and
voltage byte 94. -/
theorem C10_time_remaining_witness :
    ∃ st, (GetStatus (samples.devReading 0b00000100 94)).2 = (some st, none) ∧
      st.TimeRemaining = -1 := by
  obtain ⟨st, h, -, hc, -⟩ :=
    C10_time_remaining (samples.devReading 0b00000100 94) [94] [94] 0b00000100 94
      (by decide) (by decide) rfl rfl rfl rfl
  refine ⟨st, h, hc ?_⟩
  have hst : st = decodeStatus 0b00000100 94 := by
    have h' := GetStatus_of_done (samples.devReading 0b00000100 94) [94] [0b00000100] [94] [94]
      rfl rfl rfl rfl
    rw [h] at h'
    simpa using h'
  rw [hst]
  decide

/-- Every status the controller driver returns has its percentage in
[0,1]. -/
theorem GetStatus_percentage_range (b : Dev) (st : BQStatus)
    (h : (GetStatus b).2.1 = some st) :
    0 ≤ st.BatteryPercentage ∧ st.BatteryPercentage ≤ 1 := by
  cases h0 : b.outcome b.count <;> cases h1 : b.outcome (b.count + 1) <;>
    cases h2 : b.outcome (b.count + 2) <;> cases h3 : b.outcome (b.count + 3) <;>
    simp [GetStatus, writeReg, readReg, Dev.Tx, h0, h1, h2, h3] at h
  subst h
  exact ⟨(percentOfVoltage_spec _).1, (percentOfVoltage_spec _).2.1⟩

end bq25895

/-! ## Fuel gauge -/

namespace max17048

/-- On two bytes, `uint16(hi)<<8 | uint16(lo)` is `hi * 256 + lo`. -/
theorem word16_eq (hi lo : Nat) (hhi : hi < 256) (hlo : lo < 256) :
    word16 hi lo = hi * 256 + lo := by
  have h1 : hi % 65536 = hi := Nat.mod_eq_of_lt (by omega)
  have h2 : lo % 65536 = lo := Nat.mod_eq_of_lt (by omega)
  have h3 : hi * 2 ^ 8 % 65536 = 2 ^ 8 * hi := by
    rw [Nat.mod_eq_of_lt (by omega)]
    ring
  have h4 : lo < 2 ^ 8 := by omega
  rw [word16, h1, h2, Nat.shiftLeft_eq, h3, ← Nat.mul_add_lt_is_or h4]
  ring

theorem word16_lt (hi lo : Nat) : word16 hi lo < 65536 := by
  have h1 : (hi % 65536) <<< 8 % 65536 < 2 ^ 16 := Nat.mod_lt _ (by decide)
  have h2 : lo % 65536 < 2 ^ 16 := Nat.mod_lt _ (by decide)
  exact Nat.or_lt_two_pow h1 h2

/-- Whatever the bus does, the state of charge returned by the gauge driver
is `raw / 256` for some 16-bit `raw`. -/
theorem GetStatus_soc_raw (m : Dev) :
    ∃ raw : Nat, raw < 65536 ∧ (GetStatus m).2.2.1 = (raw : ℚ) / 256 := by
  cases h0 : m.outcome m.count with
  | fail e => exact ⟨0, by decide, by simp [GetStatus, Dev.Tx, h0]⟩
  | done r0 =>
    cases h1 : m.outcome (m.count + 1) with
    | fail e => exact ⟨0, by decide, by simp [GetStatus, Dev.Tx, h0, h1]⟩
    | done r1 =>
      refine ⟨word16 (r1.getD 0 0 % 256) (r1.getD 1 0 % 256), word16_lt _ _, ?_⟩
      simp [GetStatus, Dev.Tx, h0, h1, List.range_succ]
      norm_num

/-- The gauge driver on a bus delivering two bytes from each register. -/
theorem gauge_GetStatus_of_done (m : Dev) (b0 b1 c0 c1 : Nat)
    (hb0 : b0 < 256) (hb1 : b1 < 256) (hc0 : c0 < 256) (hc1 : c1 < 256)
    (h0 : m.outcome m.count = .done [b0, b1])
    (h1 : m.outcome (m.count + 1) = .done [c0, c1]) :
    (GetStatus m).2 =
        (((b0 * 256 + b1 : Nat) : ℚ) * 78.125 / 1000000,
          ((c0 * 256 + c1 : Nat) : ℚ) / 256, none) := by
  have e0 : b0 % 256 = b0 := Nat.mod_eq_of_lt hb0
  have e1 : b1 % 256 = b1 := Nat.mod_eq_of_lt hb1
  have e2 : c0 % 256 = c0 := Nat.mod_eq_of_lt hc0
  have e3 : c1 % 256 = c1 := Nat.mod_eq_of_lt hc1
  simp [GetStatus, Dev.Tx, h0, h1, List.range_succ, e0, e1, e2, e3,
    word16_eq b0 b1 hb0 hb1, word16_eq c0 c1 hc0 hc1]
  constructor <;> norm_num


/-- C8: for all bytes `(b0, b1)` from the voltage register and `(c0, c1)`
from the state-of-charge register, in the order received, the fuel gauge
`GetStatus` rebuilds each raw value as `first * 256 + second` and returns
`voltage = raw * 78.125 / 1000000` and `stateOfCharge = raw / 256`. -/
theorem C8_gauge_decode (m : Dev) (b0 b1 c0 c1 : Nat)
    (hb0 : b0 < 256) (hb1 : b1 < 256) (hc0 : c0 < 256) (hc1 : c1 < 256)
    (h0 : m.outcome m.count = .done [b0, b1])
    (h1 : m.outcome (m.count + 1) = .done [c0, c1]) :
    word16 b0 b1 = b0 * 256 + b1 ∧ word16 c0 c1 = c0 * 256 + c1 ∧
      (GetStatus m).2 =
        (((b0 * 256 + b1 : Nat) : ℚ) * 78.125 / 1000000,
          ((c0 * 256 + c1 : Nat) : ℚ) / 256, none) :=
  ⟨word16_eq b0 b1 hb0 hb1, word16_eq c0 c1 hc0 hc1,
    gauge_GetStatus_of_done m b0 b1 c0 c1 hb0 hb1 hc0 hc1 h0 h1⟩

/-- C8 on the bytes (0x34, 0x12) from both registers: the raw value is
0x3412. -/
theorem C8_gauge_decode_witness :
    word16 0x34 0x12 = 0x3412 ∧
      (GetStatus (samples.gaugeReading 0x34 0x12 0x34 0x12)).2 =
        (((0x3412 : Nat) : ℚ) * 78.125 / 1000000, ((0x3412 : Nat) : ℚ) / 256, none) := by
  obtain ⟨hw, -, hg⟩ :=
    C8_gauge_decode (samples.gaugeReading 0x34 0x12 0x34 0x12) 0x34 0x12 0x34 0x12
      (by decide) (by decide) (by decide) (by decide) rfl rfl
  exact ⟨hw, hg⟩

end max17048

/-! ## Aggregation policy -/

namespace server

/-- Level and voltage of the report when the gauge read returned no error. -/
theorem rootHandler_gauge (bq : Option BQClient) (m : MaxClient) (hm : m.Err = none) :
    (rootHandler { bq := bq, max := some m }).Level = goInt m.Soc ∧
      (rootHandler { bq := bq, max := some m }).Voltage = m.Vol := by
  simp [rootHandler, hm]

/-- State of the report, as a function of the controller status alone. -/
theorem rootHandler_state (s : Server) :
    (rootHandler s).State =
      match s.bq.bind (fun c => c.Status) with
      | none => "Discharging"
      | some st =>
        if st.ChargeStatus = "Charging done" then "Full"
        else if st.ChargeStatus = "Charging" ∨ st.ChargeStatus = "Pre-Charge" then "Charging"
        else if st.ChargeStatus = "Not Charging" then
          if st.Input = "Connected" then "Not Charging" else "Discharging"
        else "Discharging" := by
  rcases s with ⟨bq, mx⟩
  rcases bq with _ | ⟨_ | st, e⟩ <;> simp [rootHandler]

/-- C2 (as stated, refuted): with a gauge reading of (3.9, 55.75) and no
controller, the level of the report is 55, not the nearest integer 56. -/
theorem C2_level_is_not_rounded :
    (rootHandler { bq := none, max := some { Vol := 3.9, Soc := 55.75, Err := none } }).Level
      ≠ round (55.75 : ℚ) := by
  have hl : (rootHandler
      { bq := none, max := some { Vol := 3.9, Soc := 55.75, Err := none } }).Level = 55 := by
    rw [(rootHandler_gauge none _ rfl).1, goInt_of_nonneg (by norm_num)]
    exact Int.floor_eq_iff.mpr ⟨by norm_num, by norm_num⟩
  have hr : round (55.75 : ℚ) = 56 := by
    rw [round_eq]
    exact Int.floor_eq_iff.mpr ⟨by norm_num, by norm_num⟩
  rw [hl, hr]
  decide

/-- C2 (amended): for every gauge reading returned without error and every
controller outcome, the level of the report is the state of charge
truncated toward zero (its floor when it is non-negative) and the voltage is
the gauge voltage. -/
theorem C2_level_truncates_gauge (bq : Option BQClient) (m : MaxClient) (hm : m.Err = none) :
    (rootHandler { bq := bq, max := some m }).Level = goInt m.Soc ∧
      (0 ≤ m.Soc → (rootHandler { bq := bq, max := some m }).Level = ⌊m.Soc⌋) ∧
      (rootHandler { bq := bq, max := some m }).Voltage = m.Vol := by
  obtain ⟨hl, hv⟩ := rootHandler_gauge bq m hm
  exact ⟨hl, fun h0 => by rw [hl, goInt_of_nonneg h0], hv⟩

/-- C2 (amended) on the gauge reading (3.9, 55.0) next to a charging
controller: level 55 and voltage 3.9. -/
theorem C2_level_truncates_gauge_witness :
    (rootHandler
        { bq := some { Status := some (bq25895.decodeStatus 0b00010100 75), Err := none }
          max := some { Vol := 3.9, Soc := 55.0, Err := none } }).Level = 55 ∧
      (rootHandler
        { bq := some { Status := some (bq25895.decodeStatus 0b00010100 75), Err := none }
          max := some { Vol := 3.9, Soc := 55.0, Err := none } }).Voltage = 3.9 := by
  obtain ⟨-, hl, hv⟩ := C2_level_truncates_gauge
    (some { Status := some (bq25895.decodeStatus 0b00010100 75), Err := none })
    { Vol := 3.9, Soc := 55.0, Err := none } rfl
  refine ⟨?_, hv⟩
  rw [hl (by norm_num)]
  exact Int.floor_eq_iff.mpr ⟨by norm_num, by norm_num⟩

/-- C4 (as stated, refuted): for a controller reading `Not Charging` with
input `Connected` the state of the report is `Not Charging`, with a space,
which is none of `Charging`, `Full`, `NotCharging`, `Discharging`. -/
theorem C4_state_not_in_spec_set :
    (rootHandler
        { bq := some { Status := some (bq25895.decodeStatus 0b00000100 75), Err := none }
          max := none }).State
      ∉ ["Charging", "Full", "NotCharging", "Discharging"] := by
  rw [rootHandler_state]
  decide

/-- C4 (amended): for every pair of driver outcomes the state of the report
is one of exactly the four strings `Charging`, `Full`, `Not Charging`,
`Discharging`. -/
theorem C4_state_in_code_set (s : Server) :
    (rootHandler s).State ∈ ["Charging", "Full", "Not Charging", "Discharging"] := by
  rw [rootHandler_state]
  split
  · simp
  · split_ifs <;> simp

/-- C5 (the code at the failing input): a controller client that returns a
status together with an error is not treated as absent.  With the gauge
failing, the report is built from that status (level 50, voltage 3.8, state
`Charging`), and differs from the report without a controller reading. -/
theorem C5_status_with_error_is_used :
    rootHandler
        { bq := some
            { Status := some
                { Input := "Connected", ChargeStatus := "Charging", BatteryVoltage := 3.8,
                  BatteryPercentage := 0.5, TimeRemaining := -1 }
              Err := some "bus error" }
          max := some { Vol := 0, Soc := 0, Err := some "max failure" } }
        = { Level := 50, Voltage := 3.8, State := "Charging", IsCharging := true } ∧
      rootHandler { bq := none, max := some { Vol := 0, Soc := 0, Err := some "max failure" } }
        = { Level := 0, Voltage := 0, State := "Discharging", IsCharging := false } := by
  constructor
  · have h : goInt (f64Mul 0.5 100) = 50 := by
      rw [f64Mul_half, goInt_of_nonneg (by norm_num)]
      exact Int.floor_eq_iff.mpr ⟨by norm_num, by norm_num⟩
    simp [rootHandler, h]
  · simp [rootHandler]

/-- Level of the report when the gauge is absent or its read failed. -/
theorem rootHandler_fallback_level (bq : Option BQClient) (mx : Option MaxClient)
    (hm : ∀ m, mx = some m → m.Err ≠ none) :
    (rootHandler { bq := bq, max := mx }).Level =
      match bq.bind (fun c => c.Status) with
      | some st => goInt (f64Mul st.BatteryPercentage 100)
      | none => 0 := by
  rcases mx with _ | m
  · rcases bq with _ | ⟨_ | st, e⟩ <;> simp [rootHandler]
  · have hne : m.Err ≠ none := hm m rfl
    rcases bq with _ | ⟨_ | st, e⟩ <;> simp [rootHandler, hne]

/-- C3 (as stated, refuted): when the gauge delivers the state-of-charge
register value 0xFFFF, the level of the report is 255, outside 0..100. -/
theorem C3_level_exceeds_100 :
    ¬ (0 ≤ (rootHandler
          { bq := none
            max := some (maxClientOfDriver (samples.gaugeReading 0x34 0x12 0xFF 0xFF)) }).Level ∧
        (rootHandler
          { bq := none
            max := some (maxClientOfDriver (samples.gaugeReading 0x34 0x12 0xFF 0xFF)) }).Level
          ≤ 100) := by
  have hg : (max17048.GetStatus (samples.gaugeReading 0x34 0x12 0xFF 0xFF)).2 =
      (((0x34 * 256 + 0x12 : Nat) : ℚ) * 78.125 / 1000000,
        ((0xFF * 256 + 0xFF : Nat) : ℚ) / 256, none) :=
    (max17048.gauge_GetStatus_of_done (samples.gaugeReading 0x34 0x12 0xFF 0xFF) 0x34 0x12 0xFF 0xFF
      (by decide) (by decide) (by decide) (by decide) rfl rfl)
  have hl : (rootHandler
      { bq := none
        max := some (maxClientOfDriver (samples.gaugeReading 0x34 0x12 0xFF 0xFF)) }).Level
      = 255 := by
    rw [(rootHandler_gauge none _ (by simp [maxClientOfDriver, hg])).1]
    simp only [maxClientOfDriver, hg]
    rw [goInt_of_nonneg (by positivity)]
    exact Int.floor_eq_iff.mpr ⟨by norm_num, by norm_num⟩
  rw [hl]
  decide

/-- C3 (amended): for every pair of driver outcomes the level of the report
is an integer in 0..255; when the gauge read succeeds it is the floor of the
state of charge `raw / 256`, and it lies in 0..100 unless the gauge read
succeeded with a state of charge of 101 or more (raw at least 25856). -/
theorem C3_level_range (bq mx : Option Dev) :
    0 ≤ (rootHandler { bq := bq.map bqClientOfDriver, max := mx.map maxClientOfDriver }).Level ∧
      (rootHandler { bq := bq.map bqClientOfDriver, max := mx.map maxClientOfDriver }).Level
        ≤ 255 ∧
      (∀ m, mx = some m → (max17048.GetStatus m).2.2.2 = none →
        (rootHandler { bq := bq.map bqClientOfDriver, max := mx.map maxClientOfDriver }).Level
          = ⌊(max17048.GetStatus m).2.2.1⌋) ∧
      ((rootHandler { bq := bq.map bqClientOfDriver, max := mx.map maxClientOfDriver }).Level
          ≤ 100 ∨
        ∃ m, mx = some m ∧ (max17048.GetStatus m).2.2.2 = none ∧
          101 ≤ (max17048.GetStatus m).2.2.1) := by
  -- the fallback level, from the controller driver or zero, lies in 0..100
  have hfb : ∀ mc : Option MaxClient, (∀ m, mc = some m → m.Err ≠ none) →
      0 ≤ (rootHandler { bq := bq.map bqClientOfDriver, max := mc }).Level ∧
        (rootHandler { bq := bq.map bqClientOfDriver, max := mc }).Level ≤ 100 := by
    intro mc hmc
    rw [rootHandler_fallback_level _ _ hmc]
    rcases bq with _ | b
    · simp
    · cases hst : (bq25895.GetStatus b).2.1 with
      | none => simp [bqClientOfDriver, hst]
      | some st =>
        obtain ⟨h0, h1⟩ := bq25895.GetStatus_percentage_range b st hst
        obtain ⟨hx0, hx1⟩ := f64Mul_mem_Icc st.BatteryPercentage h0 h1
        have hx2 : f64Mul st.BatteryPercentage 100 < 101 := by linarith
        simp only [Option.map, Option.bind, bqClientOfDriver, hst]
        rw [goInt_of_nonneg hx0]
        have hlt : ⌊f64Mul st.BatteryPercentage 100⌋ < 101 :=
          Int.floor_lt.mpr (by exact_mod_cast hx2)
        exact ⟨Int.floor_nonneg.mpr hx0, by omega⟩
  rcases mx with _ | m
  · obtain ⟨h0, h1⟩ := hfb none (by simp)
    exact ⟨h0, by simpa using le_trans h1 (by decide), by simp, Or.inl (by simpa using h1)⟩
  · by_cases herr : (max17048.GetStatus m).2.2.2 = none
    · obtain ⟨raw, hraw, hsoc⟩ := max17048.GetStatus_soc_raw m
      have hx0 : (0 : ℚ) ≤ (max17048.GetStatus m).2.2.1 := by
        rw [hsoc]
        positivity
      have hl : (rootHandler
          { bq := bq.map bqClientOfDriver, max := (some m).map maxClientOfDriver }).Level
          = ⌊(max17048.GetStatus m).2.2.1⌋ := by
        rw [Option.map_some', (rootHandler_gauge _ (maxClientOfDriver m) herr).1]
        exact goInt_of_nonneg hx0
      have hlt : ⌊(max17048.GetStatus m).2.2.1⌋ < 256 := by
        apply Int.floor_lt.mpr
        rw [hsoc, div_lt_iff₀ (by norm_num)]
        have : (raw : ℚ) < 65536 := by exact_mod_cast hraw
        push_cast
        linarith
      refine ⟨?_, ?_, ?_, ?_⟩
      · rw [hl]
        exact Int.floor_nonneg.mpr hx0
      · rw [hl]
        omega
      · intro m' hm' _
        cases Option.some.inj hm'
        exact hl
      · by_cases h101 : (101 : ℚ) ≤ (max17048.GetStatus m).2.2.1
        · exact Or.inr ⟨m, rfl, herr, h101⟩
        · left
          rw [hl]
          have : ⌊(max17048.GetStatus m).2.2.1⌋ < 101 :=
            Int.floor_lt.mpr (by exact_mod_cast not_le.mp h101)
          omega
    · obtain ⟨h0, h1⟩ := hfb ((some m).map maxClientOfDriver) (by
        intro m' hm'
        simp only [Option.map_some', Option.some.injEq] at hm'
        subst hm'
        exact herr)
      refine ⟨h0, le_trans h1 (by decide), ?_, Or.inl h1⟩
      intro m' hm' herr'
      cases Option.some.inj hm'
      exact absurd herr' herr

/-- C3 (amended) on a gauge delivering the state-of-charge register value
0xFFFF with no controller: the level is 255. -/
theorem C3_level_range_witness :
    (rootHandler
        { bq := none
          max := some (maxClientOfDriver (samples.gaugeReading 0x34 0x12 0xFF 0xFF)) }).Level
      = 255 := by
  have hg : (max17048.GetStatus (samples.gaugeReading 0x34 0x12 0xFF 0xFF)).2 =
      (((0x34 * 256 + 0x12 : Nat) : ℚ) * 78.125 / 1000000,
        ((0xFF * 256 + 0xFF : Nat) : ℚ) / 256, none) :=
    (max17048.gauge_GetStatus_of_done (samples.gaugeReading 0x34 0x12 0xFF 0xFF) 0x34 0x12 0xFF 0xFF
      (by decide) (by decide) (by decide) (by decide) rfl rfl)
  have h := (C3_level_range none (some (samples.gaugeReading 0x34 0x12 0xFF 0xFF))).2.2.1
    _ rfl (by rw [hg])
  simp only [Option.map_none', Option.map_some'] at h
  rw [h, hg]
  exact Int.floor_eq_iff.mpr ⟨by norm_num, by norm_num⟩

/-! ## Aggregation policy: fallback to the controller and state classification -/

/-- Voltage of the report when the gauge is absent or its read failed. -/
theorem rootHandler_fallback_voltage (bq : Option BQClient) (mx : Option MaxClient)
    (hm : ∀ m, mx = some m → m.Err ≠ none) :
    (rootHandler { bq := bq, max := mx }).Voltage =
      match bq.bind (fun c => c.Status) with
      | some st => st.BatteryVoltage
      | none => 0 := by
  rcases mx with _ | m
  · rcases bq with _ | ⟨_ | st, e⟩ <;> simp [rootHandler]
  · have hne : m.Err ≠ none := hm m rfl
    rcases bq with _ | ⟨_ | st, e⟩ <;> simp [rootHandler, hne]

/-- The charging flag of the report is the test of its state against
`Charging`. -/
theorem rootHandler_isCharging (s : Server) :
    (rootHandler s).IsCharging = decide ((rootHandler s).State = "Charging") := by
  rcases s with ⟨bq, mx⟩
  rcases bq with _ | ⟨_ | st, e⟩ <;> simp [rootHandler]

/-- The percentage the controller driver decodes from voltage byte 70
(3.704 V). -/
theorem percentOfVoltage_byte70 :
    bq25895.percentOfVoltage (bq25895.parseVoltage 70) = 17 / 57 := by
  rw [bq25895.parseVoltage_eq]
  norm_num [bq25895.percentOfVoltage, bq25895.bqTranslate]

/-- C11 (as stated, refuted): with the gauge read failing and the controller
status decoded from voltage byte 70 (percentage 17/57, about 0.298), the
level of the report is 29, not the nearest integer 30. -/
theorem C11_fallback_level_is_not_rounded :
    (rootHandler
        { bq := some { Status := some (bq25895.decodeStatus 0 70), Err := none }
          max := some { Vol := 0, Soc := 0, Err := some "max failure" } }).Level
      ≠ round ((bq25895.decodeStatus 0 70).BatteryPercentage * 100) := by
  have hp : (bq25895.decodeStatus 0 70).BatteryPercentage = 17 / 57 := percentOfVoltage_byte70
  have hl : (rootHandler
      { bq := some { Status := some (bq25895.decodeStatus 0 70), Err := none }
        max := some { Vol := 0, Soc := 0, Err := some "max failure" } }).Level = 29 := by
    rw [rootHandler_fallback_level _ _ (by simp)]
    show goInt (f64Mul (bq25895.percentOfVoltage (bq25895.parseVoltage 70)) 100) = 29
    rw [bq25895.f64Mul_percent_goInt 70, percentOfVoltage_byte70, goInt_of_nonneg (by norm_num)]
    exact Int.floor_eq_iff.mpr ⟨by norm_num, by norm_num⟩
  have hr : round ((bq25895.decodeStatus 0 70).BatteryPercentage * 100) = 30 := by
    rw [hp, round_eq]
    exact Int.floor_eq_iff.mpr ⟨by norm_num, by norm_num⟩
  rw [hl, hr]
  decide

/-- C11 (amended): for every controller reading returned without error while
the gauge read fails, the level of the report is the binary64 product
`batteryPercentage * 100` truncated toward zero (its floor when the
percentage is non-negative) and the voltage is the controller's battery
voltage. -/
theorem C11_fallback_truncates_controller (st : bq25895.BQStatus) (m : MaxClient)
    (hm : m.Err ≠ none) :
    (rootHandler { bq := some { Status := some st, Err := none }, max := some m }).Level
        = goInt (f64Mul st.BatteryPercentage 100) ∧
      (0 ≤ st.BatteryPercentage →
        (rootHandler { bq := some { Status := some st, Err := none }, max := some m }).Level
          = ⌊f64Mul st.BatteryPercentage 100⌋) ∧
      (rootHandler { bq := some { Status := some st, Err := none }, max := some m }).Voltage
        = st.BatteryVoltage := by
  have hm' : ∀ m', some m = some m' → m'.Err ≠ none := by
    intro m' h
    cases h
    exact hm
  have hl := rootHandler_fallback_level (some { Status := some st, Err := none }) (some m) hm'
  have hv := rootHandler_fallback_voltage (some { Status := some st, Err := none }) (some m) hm'
  simp only [Option.bind] at hl hv
  refine ⟨hl, fun h0 => ?_, hv⟩
  rw [hl, goInt_of_nonneg (f64Mul_nonneg _ h0)]

/-- C11 (amended) on the reading of the test `Fallback to BQ when Max
fails`: percentage 0.3 and voltage 3.6 give level 30 and voltage 3.6; and on
the percentage 0.29, whose binary64 product with 100 falls just below 29:
level 28. -/
theorem C11_fallback_truncates_controller_witness :
    (rootHandler
        { bq := some
            { Status := some
                { Input := "Disconnected", ChargeStatus := "Not Charging", BatteryVoltage := 3.6,
                  BatteryPercentage := 0.3, TimeRemaining := 0 }
              Err := none }
          max := some { Vol := 0, Soc := 0, Err := some "max failure" } }).Level = 30 ∧
      (rootHandler
        { bq := some
            { Status := some
                { Input := "Disconnected", ChargeStatus := "Not Charging", BatteryVoltage := 3.6,
                  BatteryPercentage := 0.3, TimeRemaining := 0 }
              Err := none }
          max := some { Vol := 0, Soc := 0, Err := some "max failure" } }).Voltage = 3.6 ∧
      (rootHandler
        { bq := some
            { Status := some
                { Input := "Disconnected", ChargeStatus := "Not Charging", BatteryVoltage := 3.6,
                  BatteryPercentage := 0.29, TimeRemaining := 0 }
              Err := none }
          max := some { Vol := 0, Soc := 0, Err := some "max failure" } }).Level = 28 := by
  obtain ⟨-, hl, hv⟩ := C11_fallback_truncates_controller
    { Input := "Disconnected", ChargeStatus := "Not Charging", BatteryVoltage := 3.6,
      BatteryPercentage := 0.3, TimeRemaining := 0 }
    { Vol := 0, Soc := 0, Err := some "max failure" } (by simp)
  obtain ⟨-, hl2, -⟩ := C11_fallback_truncates_controller
    { Input := "Disconnected", ChargeStatus := "Not Charging", BatteryVoltage := 3.6,
      BatteryPercentage := 0.29, TimeRemaining := 0 }
    { Vol := 0, Soc := 0, Err := some "max failure" } (by simp)
  refine ⟨?_, hv, ?_⟩
  · rw [hl (by norm_num)]
    show ⌊f64Mul 0.3 100⌋ = 30
    rw [f64Mul_three_tenths]
    exact Int.floor_eq_iff.mpr ⟨by norm_num, by norm_num⟩
  · rw [hl2 (by norm_num)]
    show ⌊f64Mul 0.29 100⌋ = 28
    rw [f64Mul_twentynine_hundredths]
    exact Int.floor_eq_iff.mpr ⟨by norm_num, by norm_num⟩

/-- C12: for every controller reading returned without error whose stage is
not `Not Charging`, the state is fixed by the stage alone, whatever the input
power and the gauge outcome: `Charging done` gives `Full` with the charging
flag false, `Charging` or `Pre-Charge` gives `Charging` with the flag true. -/
theorem C12_state_from_stage (st : bq25895.BQStatus) (mx : Option MaxClient) :
    (st.ChargeStatus = "Charging done" →
        (rootHandler { bq := some { Status := some st, Err := none }, max := mx }).State = "Full" ∧
        (rootHandler { bq := some { Status := some st, Err := none }, max := mx }).IsCharging
          = false) ∧
      (st.ChargeStatus = "Charging" ∨ st.ChargeStatus = "Pre-Charge" →
        (rootHandler { bq := some { Status := some st, Err := none }, max := mx }).State
          = "Charging" ∧
        (rootHandler { bq := some { Status := some st, Err := none }, max := mx }).IsCharging
          = true) := by
  constructor
  · intro h
    rw [rootHandler_isCharging, rootHandler_state]
    simp [h]
    decide
  · intro h
    rw [rootHandler_isCharging, rootHandler_state]
    rcases h with h | h <;> simp [h]

/-- C12 on the reading of the test `Full Charge`: stage `Charging done`,
input `Connected`, gauge (4.2, 100.0). -/
theorem C12_state_from_stage_witness :
    (rootHandler
        { bq := some
            { Status := some
                { Input := "Connected", ChargeStatus := "Charging done", BatteryVoltage := 0,
                  BatteryPercentage := 0, TimeRemaining := 0 }
              Err := none }
          max := some { Vol := 4.2, Soc := 100.0, Err := none } }).State = "Full" ∧
      (rootHandler
        { bq := some
            { Status := some
                { Input := "Connected", ChargeStatus := "Charging done", BatteryVoltage := 0,
                  BatteryPercentage := 0, TimeRemaining := 0 }
              Err := none }
          max := some { Vol := 4.2, Soc := 100.0, Err := none } }).IsCharging = false :=
  (C12_state_from_stage
    { Input := "Connected", ChargeStatus := "Charging done", BatteryVoltage := 0,
      BatteryPercentage := 0, TimeRemaining := 0 }
    (some { Vol := 4.2, Soc := 100.0, Err := none })).1 rfl

/-- C13: for every controller reading returned without error with stage
`Not Charging` and input `Connected`, and every gauge outcome, the state of
the report is `Not Charging` (the string the test expects) and the charging
flag is false. -/
theorem C13_not_charging_connected (st : bq25895.BQStatus) (mx : Option MaxClient)
    (hc : st.ChargeStatus = "Not Charging") (hi : st.Input = "Connected") :
    (rootHandler { bq := some { Status := some st, Err := none }, max := mx }).State
        = "Not Charging" ∧
      (rootHandler { bq := some { Status := some st, Err := none }, max := mx }).IsCharging
        = false := by
  rw [rootHandler_isCharging, rootHandler_state]
  simp [hc, hi]
  decide

/-- C13 on the reading of the test `Not Charging (Connected)` with gauge
(3.7, 40.0). -/
theorem C13_not_charging_connected_witness :
    (rootHandler
        { bq := some
            { Status := some
                { Input := "Connected", ChargeStatus := "Not Charging", BatteryVoltage := 0,
                  BatteryPercentage := 0, TimeRemaining := 0 }
              Err := none }
          max := some { Vol := 3.7, Soc := 40.0, Err := none } }).State = "Not Charging" ∧
      (rootHandler
        { bq := some
            { Status := some
                { Input := "Connected", ChargeStatus := "Not Charging", BatteryVoltage := 0,
                  BatteryPercentage := 0, TimeRemaining := 0 }
              Err := none }
          max := some { Vol := 3.7, Soc := 40.0, Err := none } }).IsCharging = false :=
  C13_not_charging_connected
    { Input := "Connected", ChargeStatus := "Not Charging", BatteryVoltage := 0,
      BatteryPercentage := 0, TimeRemaining := 0 }
    (some { Vol := 3.7, Soc := 40.0, Err := none }) rfl rfl

/-- C14: for every gauge outcome, if the controller reading has stage
`Not Charging` and input `Disconnected`, or there is no controller reading
at all (no client, or a nil status), the state of the report is
`Discharging` and the charging flag is false. -/
theorem C14_discharging (bq : Option BQClient) (mx : Option MaxClient)
    (h : bq.bind (fun c => c.Status) = none ∨
      ∃ st, bq.bind (fun c => c.Status) = some st ∧
        st.ChargeStatus = "Not Charging" ∧ st.Input = "Disconnected") :
    (rootHandler { bq := bq, max := mx }).State = "Discharging" ∧
      (rootHandler { bq := bq, max := mx }).IsCharging = false := by
  rw [rootHandler_isCharging, rootHandler_state]
  rcases h with h | ⟨st, h, hc, hi⟩
  · simp [h]
    decide
  · simp [h, hc, hi]
    decide

/-- C14 on the reading of the test `Discharging (Not Charging +
Disconnected)` with gauge (3.7, 40.0). -/
theorem C14_discharging_witness :
    (rootHandler
        { bq := some
            { Status := some
                { Input := "Disconnected", ChargeStatus := "Not Charging", BatteryVoltage := 0,
                  BatteryPercentage := 0, TimeRemaining := 0 }
              Err := none }
          max := some { Vol := 3.7, Soc := 40.0, Err := none } }).State = "Discharging" ∧
      (rootHandler
        { bq := some
            { Status := some
                { Input := "Disconnected", ChargeStatus := "Not Charging", BatteryVoltage := 0,
                  BatteryPercentage := 0, TimeRemaining := 0 }
              Err := none }
          max := some { Vol := 3.7, Soc := 40.0, Err := none } }).IsCharging = false :=
  C14_discharging _ _ (Or.inr ⟨_, rfl, rfl, rfl⟩)

/-- C15: for every pair of driver outcomes, the charging flag of the report
is true if and only if its state is `Charging`. -/
theorem C15_isCharging_iff_state (s : Server) :
    (rootHandler s).IsCharging = true ↔ (rootHandler s).State = "Charging" := by
  rw [rootHandler_isCharging]
  exact decide_eq_true_iff

/-- C18: when there is no controller reading (no client or a nil status) and
no gauge reading (no client or a failed read), the report is exactly level
0, voltage 0, state `Discharging`, charging flag false. -/
theorem C18_both_absent (bq : Option BQClient) (mx : Option MaxClient)
    (hbq : bq.bind (fun c => c.Status) = none) (hmx : ∀ m, mx = some m → m.Err ≠ none) :
    rootHandler { bq := bq, max := mx }
      = { Level := 0, Voltage := 0, State := "Discharging", IsCharging := false } := by
  have hl := rootHandler_fallback_level bq mx hmx
  have hv := rootHandler_fallback_voltage bq mx hmx
  have hs := rootHandler_state { bq := bq, max := mx }
  have hc := rootHandler_isCharging { bq := bq, max := mx }
  simp only [hbq] at hl hv hs
  rw [hs] at hc
  cases hr : rootHandler { bq := bq, max := mx } with
  | mk l v st c =>
    rw [hr] at hl hv hs hc
    simp only at hl hv hs hc
    subst hl hv hs
    simp [hc]
    decide

/-- C18 on a controller client failing with a nil status and a gauge client
failing. -/
theorem C18_both_absent_witness :
    rootHandler
        { bq := some { Status := none, Err := some "bus error" }
          max := some { Vol := 0, Soc := 0, Err := some "max failure" } }
      = { Level := 0, Voltage := 0, State := "Discharging", IsCharging := false } :=
  C18_both_absent _ _ rfl (by simp)

/-- C20: on the fallback path (gauge absent or failed), for the controller
status the driver decodes from any status byte and any battery-voltage byte,
the level `int(batteryPercentage * 100)` of the report lies in 0..100. -/
theorem C20_fallback_level_range (s v : Nat) (mx : Option MaxClient)
    (hmx : ∀ m, mx = some m → m.Err ≠ none) :
    (rootHandler
        { bq := some { Status := some (bq25895.decodeStatus s v), Err := none }
          max := mx }).Level
        = goInt (bq25895.percentOfVoltage (bq25895.parseVoltage v) * 100) ∧
      0 ≤ (rootHandler
        { bq := some { Status := some (bq25895.decodeStatus s v), Err := none }
          max := mx }).Level ∧
      (rootHandler
        { bq := some { Status := some (bq25895.decodeStatus s v), Err := none }
          max := mx }).Level ≤ 100 := by
  have hl := rootHandler_fallback_level
    (some { Status := some (bq25895.decodeStatus s v), Err := none }) mx hmx
  simp only [Option.bind] at hl
  have hp : (bq25895.decodeStatus s v).BatteryPercentage
      = bq25895.percentOfVoltage (bq25895.parseVoltage v) := rfl
  rw [hp, bq25895.f64Mul_percent_goInt v] at hl
  obtain ⟨h0, h1, -⟩ := bq25895.percentOfVoltage_spec (bq25895.parseVoltage v)
  have hx0 : 0 ≤ bq25895.percentOfVoltage (bq25895.parseVoltage v) * 100 :=
    mul_nonneg h0 (by norm_num)
  have hx1 : bq25895.percentOfVoltage (bq25895.parseVoltage v) * 100 < 101 := by linarith
  have hlt : ⌊bq25895.percentOfVoltage (bq25895.parseVoltage v) * 100⌋ < 101 :=
    Int.floor_lt.mpr (by exact_mod_cast hx1)
  refine ⟨hl, ?_, ?_⟩
  · rw [hl, goInt_of_nonneg hx0]
    exact Int.floor_nonneg.mpr hx0
  · rw [hl, goInt_of_nonneg hx0]
    omega

/-- C20 on status byte 0 and voltage byte 127 (4.844 V, clamped to 100
percent) with no gauge. -/
theorem C20_fallback_level_range_witness :
    0 ≤ (rootHandler
        { bq := some { Status := some (bq25895.decodeStatus 0 127), Err := none }
          max := none }).Level ∧
      (rootHandler
        { bq := some { Status := some (bq25895.decodeStatus 0 127), Err := none }
          max := none }).Level ≤ 100 :=
  (C20_fallback_level_range 0 127 none (by simp)).2

end server

/-! ## Charge controller: initialisation and the protection write -/

namespace bq25895

/-- The byte `Init` writes to the input-limit register is the pattern of the
specification. -/
theorem ilim_byte_eq (inputLimit : String) :
    (if inputLimit = "2A" then BYTE_ILIM_2A
      else if inputLimit = "3A" then BYTE_ILIM_3A else BYTE_ILIM_3_25A) % 256
      = spec.ilimPattern inputLimit := by
  unfold spec.ilimPattern BYTE_ILIM_2A BYTE_ILIM_3A BYTE_ILIM_3_25A
  split_ifs <;> rfl

/-- C16: for every input-limit string and every pattern of write failures,
`Init` issues its writes in the order watchdog, input limit, charge current,
BATFET with the patterns of the register map (the 3.25A pattern for every
unrecognized limit); it stops at the first failing write, issues no later
write and returns that write's error; it returns no error if and only if all
four writes succeed. -/
theorem C16_init_sequence (b : Dev) (inputLimit : String) :
    (∀ e, b.outcome b.count = .fail e →
        (Init b inputLimit).2 = some e ∧
        (Init b inputLimit).1.log = b.log ++ (spec.initWrites inputLimit).take 1) ∧
      (∀ e, (b.outcome b.count).isDone = true → b.outcome (b.count + 1) = .fail e →
        (Init b inputLimit).2 = some e ∧
        (Init b inputLimit).1.log = b.log ++ (spec.initWrites inputLimit).take 2) ∧
      (∀ e, (b.outcome b.count).isDone = true → (b.outcome (b.count + 1)).isDone = true →
        b.outcome (b.count + 2) = .fail e →
        (Init b inputLimit).2 = some e ∧
        (Init b inputLimit).1.log = b.log ++ (spec.initWrites inputLimit).take 3) ∧
      (∀ e, (b.outcome b.count).isDone = true → (b.outcome (b.count + 1)).isDone = true →
        (b.outcome (b.count + 2)).isDone = true → b.outcome (b.count + 3) = .fail e →
        (Init b inputLimit).2 = some e ∧
        (Init b inputLimit).1.log = b.log ++ spec.initWrites inputLimit) ∧
      ((b.outcome b.count).isDone = true → (b.outcome (b.count + 1)).isDone = true →
        (b.outcome (b.count + 2)).isDone = true → (b.outcome (b.count + 3)).isDone = true →
        (Init b inputLimit).2 = none ∧
        (Init b inputLimit).1.log = b.log ++ spec.initWrites inputLimit) ∧
      ((Init b inputLimit).2 = none ↔
        ((b.outcome b.count).isDone = true ∧ (b.outcome (b.count + 1)).isDone = true ∧
          (b.outcome (b.count + 2)).isDone = true ∧ (b.outcome (b.count + 3)).isDone = true)) := by
  have hil := ilim_byte_eq inputLimit
  cases h0 : b.outcome b.count <;> cases h1 : b.outcome (b.count + 1) <;>
    cases h2 : b.outcome (b.count + 2) <;> cases h3 : b.outcome (b.count + 3) <;>
    simp [Init, writeReg, Dev.Tx, TxOutcome.isDone, h0, h1, h2, h3, hil, spec.initWrites,
      REG_WATCHDOG, BYTE_WATCHDOG_STOP, REG_ILIM, REG_ICHG, BYTE_ICHG_0_5A, REG_BATFET,
      BYTE_BATFET]

/-- C16 on a device whose second write fails, with the limit `3A`: the
watchdog write and the 3A input-limit write are issued, nothing after, and
the error of the second write is returned. -/
theorem C16_init_sequence_witness :
    (Init samples.devSecondFails "3A").2 = some "input limit write failed" ∧
      (Init samples.devSecondFails "3A").1.log = [[0x07, 0b10001101], [0x00, 0b01111100]] := by
  have h := (C16_init_sequence samples.devSecondFails "3A").2.1
    "input limit write failed" rfl rfl
  simpa [samples.devSecondFails, spec.initWrites, spec.ilimPattern] using h

/-- The device after `GetStatus` when its four required transactions
succeed: the four are logged, followed by the battery-switch write exactly
when the voltage is below 3.5. -/
theorem GetStatus_log_of_done (b : Dev) (r0 rs rv r3 : List Nat)
    (h0 : b.outcome b.count = .done r0) (h1 : b.outcome (b.count + 1) = .done rs)
    (h2 : b.outcome (b.count + 2) = .done rv) (h3 : b.outcome (b.count + 3) = .done r3) :
    (GetStatus b).1.log =
      b.log ++ spec.statusWrites ++
        (if parseVoltage (rv.getD 0 0 % 256) < 3.5 then [spec.batfetDisableWrite] else []) := by
  cases h4 : b.outcome (b.count + 4) <;>
    simp [GetStatus, writeReg, readReg, Dev.Tx, h0, h1, h2, h3, h4, decodeStatus,
      spec.statusWrites, spec.batfetDisableWrite, REG_CONV_ADC, BYTE_CONV_ADC_START,
      REG_STATUS, REG_BATV, BYTE_CONV_ADC_STOP, REG_BATFET_DIS, BYTE_BATFET_DIS] <;>
    split_ifs <;> simp

/-- C17: for every `GetStatus` call whose required reads and writes succeed,
the battery-switch-disable write (register 0x09, pattern 0b01101000) is
issued, after the four required transactions, if and only if the
reconstructed voltage is below 3.5; whatever the outcome `o` of that write,
the returned status is the same and no error is returned. -/
theorem C17_protection_write (b : Dev) (r0 r3 : List Nat) (s v : Nat) (o : TxOutcome)
    (hs : s < 256) (hv : v < 256)
    (h0 : b.outcome b.count = .done r0) (h1 : b.outcome (b.count + 1) = .done [s])
    (h2 : b.outcome (b.count + 2) = .done [v]) (h3 : b.outcome (b.count + 3) = .done r3) :
    (GetStatus b).1.log =
        b.log ++ spec.statusWrites ++
          (if parseVoltage v < 3.5 then [spec.batfetDisableWrite] else []) ∧
      (GetStatus b).2 = (some (decodeStatus s v), none) ∧
      (GetStatus
          { b with outcome := fun n => if n = b.count + 4 then o else b.outcome n }).2
        = (GetStatus b).2 ∧
      (GetStatus
          { b with outcome := fun n => if n = b.count + 4 then o else b.outcome n }).1.log
        = (GetStatus b).1.log := by
  have hs' : [s].getD 0 0 % 256 = s := by simpa using Nat.mod_eq_of_lt hs
  have hv' : [v].getD 0 0 % 256 = v := by simpa using Nat.mod_eq_of_lt hv
  have hlog := GetStatus_log_of_done b r0 [s] [v] r3 h0 h1 h2 h3
  have hres := GetStatus_of_done b r0 [s] [v] r3 h0 h1 h2 h3
  have hlog' := GetStatus_log_of_done
    { b with outcome := fun n => if n = b.count + 4 then o else b.outcome n } r0 [s] [v] r3
    (by simpa using h0) (by simpa using h1) (by simpa using h2) (by simpa using h3)
  have hres' := GetStatus_of_done
    { b with outcome := fun n => if n = b.count + 4 then o else b.outcome n } r0 [s] [v] r3
    (by simpa using h0) (by simpa using h1) (by simpa using h2) (by simpa using h3)
  rw [hs', hv'] at hres hres'
  rw [hv'] at hlog hlog'
  exact ⟨hlog, hres, hres'.trans hres.symm, hlog'.trans hlog.symm⟩

/-- C17 on a device reading voltage byte 20 (2.704 V) whose battery-switch
write fails: the write is issued and the status is returned without error. -/
theorem C17_protection_write_witness :
    (GetStatus (samples.devReading 0 20)).1.log =
        [[0x02, 0b10011101], [0x0B], [0x0E], [0x02, 0b00011101], [0x09, 0b01101000]] ∧
      (GetStatus
          { samples.devReading 0 20 with
            outcome := fun n =>
              if n = (samples.devReading 0 20).count + 4 then .fail "batfet write failed"
              else (samples.devReading 0 20).outcome n }).2
        = (some (decodeStatus 0 20), none) := by
  obtain ⟨hlog, hres, hres', -⟩ :=
    C17_protection_write (samples.devReading 0 20) [20] [20] 0 20 (.fail "batfet write failed")
      (by decide) (by decide) rfl rfl rfl rfl
  have hlt : parseVoltage 20 < 3.5 := by
    rw [parseVoltage_eq]
    norm_num
  refine ⟨?_, hres'.trans hres⟩
  rw [hlog, if_pos hlt]
  rfl

/-- C19: with voltages as exact rationals, for every battery-voltage
register byte `b` the voltage reconstructed by `GetStatus` is
`2.304 + 0.020 * (b mod 128)`; bit 7 has no effect, and the voltage is
strictly increasing in the 7-bit value. -/
theorem C19_voltage_linear (b a c : Nat) (hac : a < c) (hc : c < 128) :
    parseVoltage b = 2.304 + 0.020 * ((b % 128 : Nat) : ℚ) ∧
      parseVoltage (b % 128) = parseVoltage b ∧
      parseVoltage (b + 128) = parseVoltage b ∧
      parseVoltage a < parseVoltage c := by
  refine ⟨parseVoltage_eq b, ?_, ?_, ?_⟩
  · rw [parseVoltage_eq (b % 128), parseVoltage_eq b, Nat.mod_mod]
  · rw [parseVoltage_eq (b + 128), parseVoltage_eq b, Nat.add_mod_right]
  · have ha : a < 128 := lt_trans hac hc
    rw [parseVoltage_eq a, parseVoltage_eq c, Nat.mod_eq_of_lt ha, Nat.mod_eq_of_lt hc]
    have h : (a : ℚ) < (c : ℚ) := by exact_mod_cast hac
    linarith

/-- C19 on the byte 222 (94 with bit 7 set) and the 7-bit values 93 < 94. -/
theorem C19_voltage_linear_witness :
    parseVoltage 222 = 2.304 + 0.020 * ((222 % 128 : Nat) : ℚ) ∧
      parseVoltage (222 % 128) = parseVoltage 222 ∧
      parseVoltage (222 + 128) = parseVoltage 222 ∧
      parseVoltage 93 < parseVoltage 94 :=
  C19_voltage_linear 222 93 94 (by decide) (by decide)

end bq25895

end Gwugsuh
